import Mathlib

/-!
# mangarock-api: page download and conversion pipeline

A shallow embedding of `utils.go` (the same text lives in `pkg/mangarock/utils.go`):
`NormalizeOneDigitNumber`, `lastString`, `saveMRI`, `SaveChapter`, `createMangaDir`
and `ConvertMRItoPNG`, and of `Manga` and `Chapter` of the API client in
`mangarock.go` (`pkg/mangarock/api.go`).

Go strings are embedded as Lean `String`s and Go's `int` as `Int` (page ordinals come
from `range` over a slice, far from the 64-bit limits).  The operating system and the
network are an explicit file-system state plus an environment of oracles that
decides which calls fail.  `log.Fatal` prints and then calls `os.Exit(1)`: a function
that reaches it never returns to its caller, which the embedding records as the
outcome `exited`.
-/

namespace Mangarock

/-! ## strconv.Itoa -/

/-- Decimal digit character of a value below ten, as read from the table
`"0123456789"` that `strconv` indexes. -/
def digitChar : Nat → Char
  | 0 => '0'
  | 1 => '1'
  | 2 => '2'
  | 3 => '3'
  | 4 => '4'
  | 5 => '5'
  | 6 => '6'
  | 7 => '7'
  | 8 => '8'
  | _ => '9'

/-- The digit loop of `strconv.formatBits` in base ten: digits are produced from the
least significant one and written in front of what is already there.  The first
argument bounds the number of iterations. -/
def formatBits : Nat → Nat → List Char → List Char
  | 0, _, acc => acc
  | fuel + 1, u, acc =>
    if u < 10 then digitChar u :: acc
    else formatBits fuel (u / 10) (digitChar (u % 10) :: acc)

/-- Decimal text of a natural number (`u + 1` iterations always suffice, see
`formatBits_eq`). -/
def utoa (u : Nat) : List Char := formatBits (u + 1) u []

/-- Go's `strconv.Itoa`: decimal text, with a leading minus sign for negative values. -/
def Itoa (i : Int) : String :=
  if i < 0 then String.mk ('-' :: utoa (-i).toNat) else String.mk (utoa i.toNat)

/-! ## The filename allocator -/

/-- `NormalizeOneDigitNumber` inserts '0' in front of one digit numbers. -/
def NormalizeOneDigitNumber (order : Int) : String :=
  if order < 10 then "0" ++ Itoa order else Itoa order

/-- Go's `strings.Split(s, sep)` for a separator of one character, on the characters
of `s`: the pieces between consecutive separators, one more piece than there are
separators. -/
def splitChars (sep : Char) : List Char → List (List Char)
  | [] => [[]]
  | c :: cs =>
    if c = sep then [] :: splitChars sep cs
    else
      match splitChars sep cs with
      | [] => [[c]]
      | p :: ps => (c :: p) :: ps

/-- Go's `strings.Split(s, sep)` with a one-character separator. -/
def Split (s : String) (sep : Char) : List String :=
  (splitChars sep s.data).map String.mk

/-- `lastString` returns `ss[len(ss)-1]`; indexing an empty slice panics, which is
the result `none`. -/
def lastString (ss : List String) : Option String :=
  if ss.length = 0 then none else ss[ss.length - 1]?

/-- The local `filename` of `saveMRI`:
`NormalizeOneDigitNumber(index) + "-" + lastString(strings.Split(url, "/"))`. -/
def saveMRIFilename (index : Int) (url : String) : Option String :=
  match lastString (Split url '/') with
  | none => none
  | some b => some (NormalizeOneDigitNumber index ++ "-" ++ b)

/-- Go compares strings with `<` byte by byte.  Code point order on the characters
is the same order as byte order on their UTF-8 encoding. -/
def strLt (a b : String) : Prop := List.Lex (fun x y : Char => x < y) a.data b.data

instance (a b : String) : Decidable (strLt a b) := by
  unfold strLt; infer_instance

/-- Spec-side description of the basename: the portion of a locator after its last
'/' (the whole locator when it holds no '/'). -/
def afterLastSlash (u : String) : String :=
  String.mk (u.data.reverse.takeWhile (fun c => c != '/')).reverse

/-- The decimal digits of a natural number, most significant first, as characters;
zero is the single digit `0`. -/
def decimalChars (u : Nat) : List Char :=
  if u = 0 then ['0'] else (Nat.digits 10 u).reverse.map digitChar

/-- Value of a decimal digit character. -/
def digitVal (c : Char) : Nat := c.toNat - 48

/-- Value of a string of decimal digits read most significant first. -/
def decimalValue (cs : List Char) : Nat :=
  cs.foldl (fun acc c => 10 * acc + digitVal c) 0

/-- The filenames `SaveChapter` hands out, in page order: `saveMRI` is called with
the index and the element of `range chapter.Pages`. -/
def pageFilenames (pages : List String) : List (Option String) :=
  pages.enum.map (fun p => saveMRIFilename (p.1 : Int) p.2)

/-! ## The environment: file system, network, image codecs -/

/-- File contents and response payloads: sequences of bytes. -/
abbrev Bytes := List Nat

/-- A Go `error` value, identified by its message. -/
abbrev GoError := String

/-- The state of the file system: the directories that exist and the regular files
with their content, both by path as the program spells it. -/
structure FileSystem where
  dirs : List String
  files : String → Option Bytes

/-- What `http.Get` hands back when it reports no error: the status code and the
body.  Reading the body delivers `Body`; when `bodyErr` is an error the stream
breaks off with it after those bytes. -/
structure Response where
  StatusCode : Nat
  Body : Bytes
  bodyErr : Option GoError

/-- A decoded raster. -/
structure Image where
  width : Nat
  height : Nat
  pixels : List Nat
deriving DecidableEq

/-- The part of the world the program cannot control: which calls fail, what the
network answers, and the image codecs of the standard library.  Each answer
depends on the arguments of the call only, so it is the same throughout a run. -/
structure Env where
  /-- `http.Get(url)`: an error only when the request itself fails; a response
  with any status code otherwise. -/
  httpGet : String → Except GoError Response
  /-- Error of `os.Mkdir(path)`, if it fails. -/
  mkdirErr : String → Option GoError
  /-- Error of `os.Create(name)`, if it fails. -/
  createErr : String → Option GoError
  /-- Error of writing to the open file `name`, if writes to it fail. -/
  writeErr : String → Option GoError
  /-- `ioutil.ReadDir(path)`: the names of the entries, sorted by name. -/
  readDir : String → Except GoError (List String)
  /-- Error of `os.Open(name)` on an existing file, if it fails. -/
  openErr : String → Option GoError
  /-- `image.Decode` on the content of a file. -/
  decode : Bytes → Except GoError Image
  /-- The bytes `png.Encode` produces for an image, or its error. -/
  encode : Image → Except GoError Bytes

/-- How a call ends: it returns to its caller, or `log.Fatal` logs a message and
terminates the process with `os.Exit(1)`, or it panics. -/
inductive Outcome (α : Type) where
  | returned (v : α)
  | exited (msg : GoError)
  | panicked
deriving DecidableEq

/-- The error a call ended with, whether handed back to the caller or logged by
`log.Fatal` on the way out; `none` is a successful return. -/
def Outcome.err : Outcome (Option GoError) → Option GoError
  | .returned v => v
  | .exited msg => some msg
  | .panicked => some "panic: runtime error: index out of range"

/-- `os.Stat(path)` finds something at `path`. -/
def FileSystem.pathExists (fs : FileSystem) (path : String) : Bool :=
  fs.dirs.contains path || (fs.files path).isSome

/-- The file `name` created or truncated to length zero. -/
def FileSystem.truncate (fs : FileSystem) (name : String) : FileSystem :=
  { fs with files := fun q => if q = name then some [] else fs.files q }

/-- Bytes appended to the file `name`. -/
def FileSystem.append (fs : FileSystem) (name : String) (data : Bytes) : FileSystem :=
  { fs with files := fun q => if q = name then some ((fs.files q).getD [] ++ data) else fs.files q }

/-- `createMangaDir` creates the directory when `os.Stat` reports that nothing
exists at the path; the result of `os.Mkdir` is dropped. -/
def createMangaDir (env : Env) (path : String) (fs : FileSystem) : FileSystem :=
  if fs.pathExists path then fs
  else
    match env.mkdirErr path with
    | some _ => fs
    | none => { fs with dirs := path :: fs.dirs }

/-- `os.Create(name)`: creates the file or truncates it. -/
def osCreate (env : Env) (name : String) (fs : FileSystem) : Except GoError FileSystem :=
  match env.createErr name with
  | some err => .error err
  | none => .ok (fs.truncate name)

/-- `io.Copy(file, response.Body)`: the delivered bytes are written to the file, an
empty body needs no write; the first write or read error is the result.  A write
that fails writes nothing. -/
def ioCopy (env : Env) (name : String) (response : Response) (fs : FileSystem) :
    Option GoError × FileSystem :=
  if response.Body = [] then (response.bodyErr, fs)
  else
    match env.writeErr name with
    | some err => (some err, fs)
    | none => (response.bodyErr, fs.append name response.Body)

/-- Embedding of `saveMRI`.  A failing `http.Get`, `os.Create` or `io.Copy` reaches
`log.Fatal`; the `return err` behind it is never executed. -/
def saveMRI (env : Env) (index : Int) (url : String) (path : String) (fs : FileSystem) :
    Outcome (Option GoError) × FileSystem :=
  match env.httpGet url with
  | .error e => (.exited e, fs)
  | .ok response =>
    match saveMRIFilename index url with
    | none => (.panicked, fs)
    | some filename =>
      let fs1 := createMangaDir env path fs
      match osCreate env (path ++ filename) fs1 with
      | .error err => (.exited err, fs1)
      | .ok fs2 =>
        match ioCopy env (path ++ filename) response fs2 with
        | (some err, fs3) => (.exited err, fs3)
        | (none, fs3) => (.returned none, fs3)

/-- Chapter of a manga. -/
structure Chapter where
  ID : String
  Name : String
  Order : Int
  Pages : List String

/-- The loop of `SaveChapter`: `for index, page := range chapter.Pages`, from the
given index on; it returns the first error `saveMRI` returns. -/
def SaveChapterLoop (env : Env) (path : String) :
    Nat → List String → FileSystem → Outcome (Option GoError) × FileSystem
  | _, [], fs => (.returned none, fs)
  | index, page :: rest, fs =>
    match saveMRI env (index : Int) page path fs with
    | (.returned none, fs1) => SaveChapterLoop env path (index + 1) rest fs1
    | (.returned (some e), fs1) => (.returned (some e), fs1)
    | (.exited msg, fs1) => (.exited msg, fs1)
    | (.panicked, fs1) => (.panicked, fs1)

/-- `SaveChapter` saves the pages of the chapter under `path + "/"`. -/
def SaveChapter (env : Env) (chapter : Chapter) (path : String) (fs : FileSystem) :
    Outcome (Option GoError) × FileSystem :=
  SaveChapterLoop env (path ++ "/") 0 chapter.Pages fs

/-- A path names a file directly inside the directory `dir`: it is `dir`, a '/',
and a name without '/'. -/
def inDirectory (dir p : String) : Bool :=
  (dir ++ "/").data.isPrefixOf p.data && !(p.data.drop (dir ++ "/").data.length).contains '/'

/-- The environment lets page `i` with locator `u` through: the fetch delivers a
complete body and the file can be created and written. -/
def pageSucceeds (env : Env) (dir : String) (i : Int) (u : String) (r : Response) : Prop :=
  env.httpGet u = .ok r ∧ r.bodyErr = none ∧
    ∃ name, saveMRIFilename i u = some name ∧ env.createErr (dir ++ name) = none ∧
      (r.Body = [] ∨ env.writeErr (dir ++ name) = none)

/-- The path `path + filename` at which `saveMRI` creates the file of page `i` with
locator `u` (the empty name stands in for a filename that is not defined). -/
def pagePath (dir : String) (i : Nat) (u : String) : String :=
  dir ++ (saveMRIFilename (i : Int) u).getD ""

/-- Sample payload of a locator: its own characters as numbers. -/
def samplePayload (u : String) : Bytes := u.data.map Char.toNat

/-- A sample environment: every locator is answered with the given status code and
its sample payload, the body stream ends with `bodyErr`, and every file
operation succeeds; images are coded byte for byte. -/
def envServing (status : Nat) (bodyErr : Option GoError) : Env where
  httpGet := fun u => .ok ⟨status, samplePayload u, bodyErr⟩
  mkdirErr := fun _ => none
  createErr := fun _ => none
  writeErr := fun _ => none
  readDir := fun _ => .ok []
  openErr := fun _ => none
  decode := fun b => .ok ⟨1, b.length, b⟩
  encode := fun img => .ok img.pixels

/-- A sample environment in which the body of one locator breaks off after two
bytes and every other call succeeds. -/
def envBreaking (bad : String) : Env :=
  { envServing 200 none with
    httpGet := fun u =>
      if u = bad then .ok ⟨200, [1, 2], some "unexpected EOF"⟩
      else .ok ⟨200, samplePayload u, none⟩ }

/-- The file system without any file or directory. -/
def emptyFS : FileSystem := ⟨[], fun _ => none⟩

/-- The fetch of locator `u` fails with `e`: `http.Get` reports the error. -/
def fetchFails (env : Env) (u : String) (e : GoError) : Prop :=
  env.httpGet u = .error e

/-- The fetch of page `i` is answered but `os.Create` fails with `e`. -/
def createFails (env : Env) (dir : String) (i : Int) (u : String) (e : GoError) : Prop :=
  ∃ r name, env.httpGet u = .ok r ∧ saveMRIFilename i u = some name ∧
    env.createErr (dir ++ name) = some e

/-- The file of page `i` is created but copying the body `r` into it fails with
`e`: a write to the file fails, or the body stream breaks off. -/
def copyFails (env : Env) (dir : String) (i : Int) (u : String) (r : Response)
    (e : GoError) : Prop :=
  env.httpGet u = .ok r ∧
    ∃ name, saveMRIFilename i u = some name ∧ env.createErr (dir ++ name) = none ∧
      ((r.Body ≠ [] ∧ env.writeErr (dir ++ name) = some e) ∨
        ((r.Body = [] ∨ env.writeErr (dir ++ name) = none) ∧ r.bodyErr = some e))

/-! ## ConvertMRItoPNG -/

/-- Go's `strings.TrimSuffix(s, suffix)`: `s` without the trailing `suffix`, or `s`
itself when it does not end with `suffix`. -/
def TrimSuffix (s suffix : String) : String :=
  if suffix.data.isSuffixOf s.data then
    String.mk (s.data.take (s.data.length - suffix.data.length))
  else s

/-- The local `out` of `ConvertMRItoPNG`:
`strings.TrimSuffix(path+file.Name(), ".mri") + ".png"`. -/
def convertOut (path name : String) : String :=
  TrimSuffix (path ++ name) ".mri" ++ ".png"

/-- What reading an opened file yields: its content, or a read error. -/
abbrev Reader := Except GoError Bytes

/-- `os.Open(name)`: a regular file opens for reading its content; a directory
opens too, but reading it fails; nothing at the path is an error. -/
def osOpen (env : Env) (name : String) (fs : FileSystem) : Except GoError Reader :=
  match env.openErr name with
  | some err => .error err
  | none =>
    match fs.files name with
    | some content => .ok (.ok content)
    | none =>
      if fs.dirs.contains name then .ok (.error ("read " ++ name ++ ": is a directory"))
      else .error "no such file or directory"

/-- `image.Decode(r)`: a failing read is the error, the content read is decoded. -/
def imageDecode (env : Env) (r : Reader) : Except GoError Image :=
  match r with
  | .error err => .error err
  | .ok content => env.decode content

/-- `png.Encode(w, img)` on the open file `name`: the encoder's bytes are written to
the file; the encoder or the write may fail. -/
def pngEncode (env : Env) (name : String) (img : Image) (fs : FileSystem) :
    Option GoError × FileSystem :=
  match env.encode img with
  | .error err => (some err, fs)
  | .ok bytes =>
    match env.writeErr name with
    | some err => (some err, fs)
    | none => (none, fs.append name bytes)

/-- The body of the loop of `ConvertMRItoPNG` for one directory entry; `returned ()`
is the end of the iteration.  Every failure reaches `log.Fatal` with a fixed
message. -/
def convertEntry (env : Env) (path name : String) (fs : FileSystem) :
    Outcome Unit × FileSystem :=
  match osOpen env (path ++ name) fs with
  | .error _ => (.exited "Cannot open the file", fs)
  | .ok r =>
    match imageDecode env r with
    | .error _ => (.exited "Cannot decode the MRI file", fs)
    | .ok img =>
      match osCreate env (convertOut path name) fs with
      | .error _ => (.exited "cannot create the outpu", fs)
      | .ok fs1 =>
        match pngEncode env (convertOut path name) img fs1 with
        | (some _, fs2) => (.exited "Could not encode png", fs2)
        | (none, fs2) => (.returned (), fs2)

/-- The loop `for _, file := range files` of `ConvertMRItoPNG`. -/
def ConvertLoop (env : Env) (path : String) :
    List String → FileSystem → Outcome (Option GoError) × FileSystem
  | [], fs => (.returned none, fs)
  | name :: rest, fs =>
    match convertEntry env path name fs with
    | (.returned (), fs1) => ConvertLoop env path rest fs1
    | (.exited msg, fs1) => (.exited msg, fs1)
    | (.panicked, fs1) => (.panicked, fs1)

/-- `ConvertMRItoPNG` converts the entries of the directory listing in turn. -/
def ConvertMRItoPNG (env : Env) (path : String) (fs : FileSystem) :
    Outcome (Option GoError) × FileSystem :=
  match env.readDir path with
  | .error err => (.exited err, fs)
  | .ok files => ConvertLoop env path files fs

/-- A sample environment whose directory listing is `names`; every call succeeds
and images are coded byte for byte. -/
def envListing (names : List String) : Env :=
  { envServing 200 none with readDir := fun _ => .ok names }

/-- A file system holding the listed files and no directory. -/
def fsWith (entries : List (String × Bytes)) : FileSystem :=
  ⟨[], fun q => entries.lookup q⟩

/-- A sample environment like `envListing` whose PNG encoder fails. -/
def envEncodeFailing (names : List String) : Env :=
  { envListing names with encode := fun _ => .error "png: invalid format" }

/-- The entry cannot be opened. -/
def entryOpenFails (env : Env) (path name : String) (fs : FileSystem) : Prop :=
  ∃ e, osOpen env (path ++ name) fs = .error e

/-- The entry is opened but cannot be decoded. -/
def entryDecodeFails (env : Env) (path name : String) (fs : FileSystem) : Prop :=
  ∃ r e, osOpen env (path ++ name) fs = .ok r ∧ imageDecode env r = .error e

/-- The entry is decoded but its output file cannot be created. -/
def entryCreateFails (env : Env) (path name : String) (fs : FileSystem) : Prop :=
  ∃ r img e, osOpen env (path ++ name) fs = .ok r ∧ imageDecode env r = .ok img ∧
    env.createErr (convertOut path name) = some e

/-- The output file of the entry is created but the image cannot be encoded into
it: the encoder fails or the write does. -/
def entryEncodeFails (env : Env) (path name : String) (fs : FileSystem) : Prop :=
  ∃ r img, osOpen env (path ++ name) fs = .ok r ∧ imageDecode env r = .ok img ∧
    env.createErr (convertOut path name) = none ∧
    ((∃ e, env.encode img = .error e) ∨
      ∃ bytes e, env.encode img = .ok bytes ∧ env.writeErr (convertOut path name) = some e)

/-! ## The client of the web API -/

/-- Author of a manga. -/
structure Author where
  ID : String
  Name : String
  Thumbnail : String
  Role : String
deriving DecidableEq

/-- Category of a manga. -/
structure Category where
  ID : String
  Name : String
deriving DecidableEq

/-- Manga contains a manga; `Updated`, a `time.Time`, is an instant in seconds. -/
structure Manga where
  ID : String
  Name : String
  Author : Author
  Authors : List Mangarock.Author
  AuthorIDs : List String
  Genres : List String
  Rank : Int
  UpdatedChapters : Int
  NewChapters : List Chapter
  Completed : Bool
  Thumbnail : String
  Updated : Int

/-- MangaSingle contains a manga with additional fields (the type is spelled
`SingleManga` in `mangarock.go`). -/
structure MangaSingle extends Manga where
  Description : String
  Chapters : List Chapter
  Categories : List Category
  Cover : String
  Artworks : List String
  Aliases : List String

/-- The zero value `Author{}`. -/
def Author.zero : Author := ⟨"", "", "", ""⟩

/-- The zero value `Chapter{}`. -/
def Chapter.zero : Chapter := ⟨"", "", 0, []⟩

/-- The zero value `MangaSingle{}`. -/
def MangaSingle.zero : MangaSingle :=
  { ID := "", Name := "", Author := Author.zero, Authors := [], AuthorIDs := [], Genres := [],
    Rank := 0, UpdatedChapters := 0, NewChapters := [], Completed := false, Thumbnail := "",
    Updated := 0, Description := "", Chapters := [], Categories := [], Cover := "",
    Artworks := [], Aliases := [] }

/-- The response of the mangarock web api (Go's `Response`): the envelope around
the data. -/
structure APIResponse where
  Code : Int
  Data : Bytes

/-- Client is the mangarock client; the `*http.Client` it holds is part of `Api`. -/
structure Client where
  base : String
  options : List (String × String)

/-- The service behind the client and the JSON decoders of the standard library,
each a function of its arguments. -/
structure Api where
  /-- Error of `http.NewRequest(http.MethodPost, url, pr)`, if it fails. -/
  newRequestErr : String → Option GoError
  /-- `c.client.Do(req)` for a POST to `url`: the body of the answer, or an error. -/
  Do : String → Except GoError Bytes
  /-- `json.NewDecoder(res.Body).Decode(&resp)`. -/
  decodeResponse : Bytes → Except GoError APIResponse
  /-- `json.Unmarshal(res, &manga)` into a `MangaSingle`. -/
  unmarshalManga : Bytes → Except GoError MangaSingle
  /-- `json.Unmarshal(res, &pages)` into a `[]string`. -/
  unmarshalPages : Bytes → Except GoError (List String)

/-- `errors.Wrap(err, message)`: the error whose text is the message, a colon and
the text of `err`. -/
def errorsWrap (err : GoError) (message : String) : GoError :=
  message ++ ": " ++ err

/-- Embedding of `post` as `Manga` and `Chapter` call it, with the body `nil`: it
sends the request, decodes the envelope and hands back its data when the code
is zero. -/
def Client.post (api : Api) (url : String) : Except GoError Bytes :=
  match api.newRequestErr url with
  | some err => .error (errorsWrap err "Could not create Post request.")
  | none =>
    match api.Do url with
    | .error err => .error (errorsWrap err ("Could not post to " ++ url ++ " ."))
    | .ok body =>
      match api.decodeResponse body with
      | .error err => .error (errorsWrap err "Could not decode response.")
      | .ok resp =>
        if resp.Code ≠ 0 then .error ("Response code " ++ Itoa resp.Code)
        else .ok resp.Data

/-- `Manga` returns a single manga.  The statement `manga.Author = manga.Authors[0]`
indexes the list without a check and panics when it is empty. -/
def Client.Manga (api : Api) (c : Client) (id : String) :
    Outcome (MangaSingle × Option GoError) :=
  match Client.post api (c.base ++ "/info?oid=" ++ id) with
  | .error err => .returned (MangaSingle.zero, some err)
  | .ok res =>
    match api.unmarshalManga res with
    | .error err => .returned (MangaSingle.zero, some (errorsWrap err "Could not unmarshal manga"))
    | .ok manga =>
      match manga.Authors[0]? with
      | none => .panicked
      | some first => .returned ({ manga with Author := first }, none)

/-- The loop `for _, chapter := range manga.Chapters` of `Chapter` with the
`return` behind it. -/
def chapterLoop (cid : String) (pages : List String) :
    List Chapter → Chapter × Option GoError
  | [] => (Chapter.zero, some "Chapter not found")
  | chapter :: rest =>
    if chapter.ID ≠ cid then chapterLoop cid pages rest
    else ({ chapter with Pages := pages }, none)

/-- `Chapter` returns a chapter containing its images. -/
def Client.Chapter (api : Api) (c : Client) (id cid : String) :
    Outcome (Chapter × Option GoError) :=
  match Client.Manga api c id with
  | .panicked => .panicked
  | .exited msg => .exited msg
  | .returned (_, some err) => .returned (Chapter.zero, some (errorsWrap err "Could not get manga"))
  | .returned (manga, none) =>
    match Client.post api (c.base ++ "/pages?oid=" ++ cid) with
    | .error err => .returned (Chapter.zero, some (errorsWrap err "Could not get pages"))
    | .ok res =>
      match api.unmarshalPages res with
      | .error err =>
        .returned (Chapter.zero, some (errorsWrap err "Could not unmarhal pages"))
      | .ok pages => .returned (chapterLoop cid pages manga.Chapters)

/-- A sample record with the given authors and chapters. -/
def sampleManga (authors : List Author) (chapters : List Chapter) : MangaSingle :=
  { MangaSingle.zero with
    ID := "m1"
    Name := "Sample"
    Authors := authors
    Chapters := chapters }

/-- A sample service: every request is answered with code zero, the manga has the
given authors and chapters, and the pages request yields the given locators. -/
def sampleApi (authors : List Author) (chapters : List Chapter) (pages : List String) : Api where
  newRequestErr := fun _ => none
  Do := fun url => .ok (samplePayload url)
  decodeResponse := fun b => .ok ⟨0, b⟩
  unmarshalManga := fun _ => .ok (sampleManga authors chapters)
  unmarshalPages := fun _ => .ok pages

/-- A sample client. -/
def sampleClient : Client := ⟨"https://api", []⟩

example : (ConvertMRItoPNG (envListing ["sub"]) "d/" ⟨["d/sub"], fun _ => none⟩).1
    = .exited "Cannot decode the MRI file" := by decide
example : convertOut "d/" "01-a.mri" = "d/01-a.png" := by decide
example : convertOut "d/" "a.jpg" = "d/a.jpg.png" := by decide
example : convertOut "d" "a.mri" = "da.png" := by decide

example : saveMRIFilename 3 "https://cdn/x/007.mri" = some "03-007.mri" := by decide
example : saveMRIFilename 12 "a/b/page.mri" = some "12-page.mri" := by decide
example : saveMRIFilename 0 "" = some "00-" := by decide
example : NormalizeOneDigitNumber 123 = "123" := by decide
example : NormalizeOneDigitNumber (-5) = "0-5" := by decide
example : strLt "100-a" "20-a" := by decide

/-! ## Decimal text -/

theorem digitChar_lt_ten_cases (d : Nat) (h : d < 10) :
    d = 0 ∨ d = 1 ∨ d = 2 ∨ d = 3 ∨ d = 4 ∨ d = 5 ∨ d = 6 ∨ d = 7 ∨ d = 8 ∨ d = 9 := by
  omega

theorem digitChar_injOn {a b : Nat} (ha : a < 10) (hb : b < 10)
    (h : digitChar a = digitChar b) : a = b := by
  rcases digitChar_lt_ten_cases a ha with h1 | h1 | h1 | h1 | h1 | h1 | h1 | h1 | h1 | h1 <;>
  rcases digitChar_lt_ten_cases b hb with h2 | h2 | h2 | h2 | h2 | h2 | h2 | h2 | h2 | h2 <;>
  subst h1 <;> subst h2 <;> first | rfl | (exact absurd h (by decide))

theorem digitChar_eq_zero {a : Nat} (ha : a < 10) (h : digitChar a = '0') : a = 0 :=
  digitChar_injOn ha (by decide) h

theorem digitChar_ne_dash (a : Nat) : digitChar a ≠ '-' := by
  unfold digitChar
  split <;> decide

theorem digitChar_ne_slash (a : Nat) : digitChar a ≠ '/' := by
  unfold digitChar
  split <;> decide

theorem digitChar_lt {a b : Nat} (hab : a < b) (hb : b < 10) :
    digitChar a < digitChar b := by
  have ha : a < 10 := by omega
  rcases digitChar_lt_ten_cases a ha with h1 | h1 | h1 | h1 | h1 | h1 | h1 | h1 | h1 | h1 <;>
  rcases digitChar_lt_ten_cases b hb with h2 | h2 | h2 | h2 | h2 | h2 | h2 | h2 | h2 | h2 <;>
  subst h1 <;> subst h2 <;> first | (exact absurd hab (by decide)) | decide

theorem decimalChars_step (u : Nat) (h : 10 ≤ u) :
    decimalChars u = decimalChars (u / 10) ++ [digitChar (u % 10)] := by
  have h0 : u ≠ 0 := by omega
  have h1 : u / 10 ≠ 0 := by omega
  have hd : Nat.digits 10 u = (u % 10) :: Nat.digits 10 (u / 10) :=
    Nat.digits_def' (by decide) (by omega)
  simp [decimalChars, h0, h1, hd]

theorem decimalChars_small (u : Nat) (h : u < 10) : decimalChars u = [digitChar u] := by
  by_cases h0 : u = 0
  · subst h0; rfl
  · have hd : Nat.digits 10 u = [u] := Nat.digits_of_lt 10 u h0 h
    simp [decimalChars, h0, hd]

theorem formatBits_eq (fuel : Nat) :
    ∀ (u : Nat) (acc : List Char), u < fuel → formatBits fuel u acc = decimalChars u ++ acc := by
  induction fuel with
  | zero => intro u acc h; omega
  | succ n ih =>
    intro u acc h
    by_cases hu : u < 10
    · simp [formatBits, hu, decimalChars_small u hu]
    · have hlt : u / 10 < n := by omega
      simp [formatBits, hu, ih (u / 10) _ hlt, decimalChars_step u (by omega)]

theorem utoa_eq (u : Nat) : utoa u = decimalChars u := by
  simp [utoa, formatBits_eq (u + 1) u [] (Nat.lt_succ_self u)]

theorem digitVal_digitChar {d : Nat} (h : d < 10) : digitVal (digitChar d) = d := by
  rcases digitChar_lt_ten_cases d h with h1 | h1 | h1 | h1 | h1 | h1 | h1 | h1 | h1 | h1 <;>
  subst h1 <;> rfl

theorem decimalValue_snoc (l : List Char) (c : Char) :
    decimalValue (l ++ [c]) = 10 * decimalValue l + digitVal c := by
  simp [decimalValue, List.foldl_append]

theorem decimalValue_decimalChars (u : Nat) : decimalValue (decimalChars u) = u := by
  induction u using Nat.strong_induction_on with
  | _ u ih =>
    by_cases hu : u < 10
    · rw [decimalChars_small u hu]
      simp [decimalValue, digitVal_digitChar hu]
    · rw [decimalChars_step u (by omega), decimalValue_snoc, ih (u / 10) (by omega),
        digitVal_digitChar (Nat.mod_lt u (by decide))]
      omega

theorem decimalChars_injective {u v : Nat} (h : decimalChars u = decimalChars v) : u = v := by
  have := congrArg decimalValue h
  simpa [decimalValue_decimalChars] using this

theorem decimalChars_head (u : Nat) (h : 1 ≤ u) :
    ∃ c rest, decimalChars u = c :: rest ∧ c ≠ '0' ∧ (10 ≤ u → rest ≠ []) := by
  induction u using Nat.strong_induction_on with
  | _ u ih =>
    by_cases hu : u < 10
    · refine ⟨digitChar u, [], decimalChars_small u hu, ?_, by omega⟩
      intro h0
      have := digitChar_eq_zero hu h0
      omega
    · obtain ⟨c, rest, hc, hne, _⟩ := ih (u / 10) (by omega) (by omega)
      refine ⟨c, rest ++ [digitChar (u % 10)], ?_, hne, fun _ => by simp⟩
      rw [decimalChars_step u (by omega), hc]
      rfl

theorem decimalChars_no_dash (u : Nat) : '-' ∉ decimalChars u := by
  unfold decimalChars
  split
  · decide
  · intro h
    obtain ⟨d, _, hd⟩ := List.mem_map.1 h
    exact digitChar_ne_dash d hd

theorem decimalChars_no_slash (u : Nat) : '/' ∉ decimalChars u := by
  unfold decimalChars
  split
  · decide
  · intro h
    obtain ⟨d, _, hd⟩ := List.mem_map.1 h
    exact digitChar_ne_slash d hd

theorem decimalChars_two (u : Nat) (h1 : 10 ≤ u) (h2 : u < 100) :
    decimalChars u = [digitChar (u / 10), digitChar (u % 10)] := by
  rw [decimalChars_step u h1, decimalChars_small (u / 10) (by omega)]
  rfl

/-! ## NormalizeOneDigitNumber -/

theorem Itoa_natCast (n : Nat) : (Itoa (n : Int)).data = decimalChars n := by
  have h : ¬ ((n : Int) < 0) := by omega
  simp [Itoa, h, utoa_eq]

theorem normalize_small (n : Nat) (h : n < 10) :
    (NormalizeOneDigitNumber (n : Int)).data = ['0', digitChar n] := by
  have h1 : (n : Int) < 10 := by omega
  simp [NormalizeOneDigitNumber, h1, Itoa_natCast, decimalChars_small n h]

theorem normalize_large (n : Nat) (h : 10 ≤ n) :
    (NormalizeOneDigitNumber (n : Int)).data = decimalChars n := by
  have h1 : ¬ ((n : Int) < 10) := by omega
  simp [NormalizeOneDigitNumber, h1, Itoa_natCast]

theorem normalize_no_dash (n : Nat) : '-' ∉ (NormalizeOneDigitNumber (n : Int)).data := by
  by_cases h : n < 10
  · rw [normalize_small n h]
    simp [digitChar_ne_dash n |>.symm]
  · rw [normalize_large n (by omega)]
    exact decimalChars_no_dash n

theorem normalize_no_slash (n : Nat) : '/' ∉ (NormalizeOneDigitNumber (n : Int)).data := by
  by_cases h : n < 10
  · rw [normalize_small n h]
    simp [digitChar_ne_slash n |>.symm]
  · rw [normalize_large n (by omega)]
    exact decimalChars_no_slash n

theorem normalize_injective {m n : Nat}
    (h : (NormalizeOneDigitNumber (m : Int)).data = (NormalizeOneDigitNumber (n : Int)).data) :
    m = n := by
  by_cases hm : m < 10 <;> by_cases hn : n < 10
  · rw [normalize_small m hm, normalize_small n hn] at h
    simp only [List.cons.injEq, and_true, true_and] at h
    exact digitChar_injOn hm hn h
  · rw [normalize_small m hm, normalize_large n (by omega)] at h
    obtain ⟨c, rest, hc, hne, _⟩ := decimalChars_head n (by omega)
    rw [hc] at h
    simp only [List.cons.injEq] at h
    exact absurd h.1.symm hne
  · rw [normalize_large m (by omega), normalize_small n hn] at h
    obtain ⟨c, rest, hc, hne, _⟩ := decimalChars_head m (by omega)
    rw [hc] at h
    simp only [List.cons.injEq] at h
    exact absurd h.1 hne
  · rw [normalize_large m (by omega), normalize_large n (by omega)] at h
    exact decimalChars_injective h

/-- C1: for an ordinal from 0 to 9 `NormalizeOneDigitNumber` is the two characters
'0' and the decimal digit of the ordinal; from 10 on it is the decimal
representation of the ordinal (the digits of `Nat.digits 10`, most significant
first), which does not begin with '0', has at least two characters, and reads
back as the ordinal. -/
theorem NormalizeOneDigitNumber_spec (i : Int) :
    (0 ≤ i → i ≤ 9 → NormalizeOneDigitNumber i = String.mk ['0', digitChar i.toNat]) ∧
    (10 ≤ i →
      NormalizeOneDigitNumber i = Itoa i ∧
      NormalizeOneDigitNumber i = String.mk ((Nat.digits 10 i.toNat).reverse.map digitChar) ∧
      (NormalizeOneDigitNumber i).data.head? ≠ some '0' ∧
      2 ≤ (NormalizeOneDigitNumber i).data.length ∧
      decimalValue (NormalizeOneDigitNumber i).data = i.toNat) := by
  refine ⟨fun h0 h9 => ?_, fun h10 => ?_⟩
  · obtain ⟨n, rfl⟩ := Int.eq_ofNat_of_zero_le h0
    have hn : n < 10 := by omega
    have := normalize_small n hn
    exact String.ext (by simpa using this)
  · obtain ⟨n, rfl⟩ := Int.eq_ofNat_of_zero_le (by omega : (0 : Int) ≤ i)
    have hn : 10 ≤ n := by omega
    have hd := normalize_large n hn
    obtain ⟨c, rest, hc, hne, hrest⟩ := decimalChars_head n (by omega)
    have hn0 : n ≠ 0 := by omega
    refine ⟨?_, ?_, ?_, ?_, ?_⟩
    · have h1 : ¬ ((n : Int) < 10) := by omega
      simp [NormalizeOneDigitNumber, h1]
    · apply String.ext
      rw [hd]
      simp [decimalChars, hn0]
    · rw [hd, hc]
      simpa using hne
    · rw [hd, hc]
      have := hrest hn
      cases rest with
      | nil => exact absurd rfl this
      | cons a t => simp
    · rw [hd]
      simpa using decimalValue_decimalChars n

/-- C1 at the ordinals 3 and 12. -/
theorem NormalizeOneDigitNumber_spec_witness :
    NormalizeOneDigitNumber 3 = String.mk ['0', digitChar (3 : Int).toNat] ∧
    NormalizeOneDigitNumber 12 = Itoa 12 :=
  ⟨(NormalizeOneDigitNumber_spec 3).1 (by decide) (by decide),
   ((NormalizeOneDigitNumber_spec 12).2 (by decide)).1⟩

/-! ## strings.Split and the basename -/

theorem splitChars_of_not_mem (sep : Char) :
    ∀ l : List Char, sep ∉ l → splitChars sep l = [l] := by
  intro l
  induction l with
  | nil => intro _; rfl
  | cons c cs ih =>
    intro h
    have hc : c ≠ sep := fun e => h (by simp [e])
    have hcs : sep ∉ cs := fun e => h (by simp [e])
    simp [splitChars, hc, ih hcs]

theorem splitChars_of_mem (sep : Char) :
    ∀ l : List Char, sep ∈ l → ∃ q q' qs, splitChars sep l = q :: q' :: qs := by
  intro l
  induction l with
  | nil => intro h; simp at h
  | cons c cs ih =>
    intro h
    by_cases hc : c = sep
    · by_cases hcs : sep ∈ cs
      · obtain ⟨q, q', qs, e⟩ := ih hcs
        exact ⟨[], q, q' :: qs, by simp [splitChars, hc, e]⟩
      · exact ⟨[], cs, [], by simp [splitChars, hc, splitChars_of_not_mem sep cs hcs]⟩
    · have hcs : sep ∈ cs := by
        rcases List.mem_cons.1 h with e | e
        · exact absurd e.symm hc
        · exact e
      obtain ⟨q, q', qs, e⟩ := ih hcs
      exact ⟨c :: q, q', qs, by simp [splitChars, hc, e]⟩

theorem afterLast_of_not_mem (sep : Char) (l : List Char) (h : sep ∉ l) :
    (l.reverse.takeWhile (fun c => c != sep)).reverse = l := by
  have : l.reverse.takeWhile (fun c => c != sep) = l.reverse := by
    rw [List.takeWhile_eq_self_iff]
    intro x hx
    have hx' : x ∈ l := List.mem_reverse.1 hx
    have : x ≠ sep := fun e => h (e ▸ hx')
    simpa using this
  rw [this, List.reverse_reverse]

theorem afterLast_append (sep : Char) (p b : List Char) (h : sep ∉ b) :
    ((p ++ sep :: b).reverse.takeWhile (fun c => c != sep)).reverse = b := by
  have hb : ∀ a ∈ b.reverse, (fun c => c != sep) a = true := by
    intro x hx
    have hx' : x ∈ b := List.mem_reverse.1 hx
    have : x ≠ sep := fun e => h (e ▸ hx')
    simpa using this
  have e : (p ++ sep :: b).reverse = b.reverse ++ sep :: p.reverse := by simp
  rw [e, List.takeWhile_append_of_pos hb]
  simp

theorem exists_last_sep (sep : Char) :
    ∀ (l : List Char), sep ∈ l → ∃ p b, l = p ++ sep :: b ∧ sep ∉ b := by
  intro l
  induction l with
  | nil => intro h; simp at h
  | cons x xs ih =>
    intro hx
    by_cases hxs : sep ∈ xs
    · obtain ⟨p, b, e, hb⟩ := ih hxs
      exact ⟨x :: p, b, by simp [e], hb⟩
    · have : x = sep := by
        rcases List.mem_cons.1 hx with e | e
        · exact e.symm
        · exact absurd e hxs
      exact ⟨[], xs, by simp [this], hxs⟩

theorem afterLast_cons_of_mem (sep c : Char) (cs : List Char) (h : sep ∈ cs) :
    ((c :: cs).reverse.takeWhile (fun c => c != sep)).reverse
      = (cs.reverse.takeWhile (fun c => c != sep)).reverse := by
  obtain ⟨p, b, e, hb⟩ := exists_last_sep sep cs h
  rw [e]
  have e2 : c :: (p ++ sep :: b) = (c :: p) ++ sep :: b := rfl
  rw [e2, afterLast_append sep (c :: p) b hb, afterLast_append sep p b hb]

theorem splitChars_getLast (sep : Char) :
    ∀ l : List Char,
      (splitChars sep l).getLast? = some (l.reverse.takeWhile (fun c => c != sep)).reverse := by
  intro l
  induction l with
  | nil => rfl
  | cons c cs ih =>
    by_cases hcs : sep ∈ cs
    · rw [afterLast_cons_of_mem sep c cs hcs, ← ih]
      obtain ⟨q, q', qs, e⟩ := splitChars_of_mem sep cs hcs
      by_cases hc : c = sep
      · simp [splitChars, hc, e]
      · simp [splitChars, hc, e]
    · have e := splitChars_of_not_mem sep cs hcs
      by_cases hc : c = sep
      · have h1 : ((c :: cs).reverse.takeWhile (fun c => c != sep)).reverse = cs := by
          have := afterLast_append sep [] cs hcs
          simpa [hc] using this
        rw [h1]
        simp [splitChars, hc, e]
      · have hmem : sep ∉ c :: cs := by
          intro h
          rcases List.mem_cons.1 h with e' | e'
          · exact hc e'.symm
          · exact hcs e'
        rw [afterLast_of_not_mem sep (c :: cs) hmem]
        simp [splitChars, hc, e]

theorem lastString_Split (u : String) : lastString (Split u '/') = some (afterLastSlash u) := by
  have h := splitChars_getLast '/' u.data
  have hne : (Split u '/').length ≠ 0 := by
    intro h0
    have : splitChars '/' u.data = [] := by
      simpa [Split] using h0
    rw [this] at h
    simp at h
  unfold lastString
  rw [if_neg hne, ← List.getLast?_eq_getElem?]
  simp [Split, List.getLast?_map, h, afterLastSlash]

theorem saveMRIFilename_eq (i : Int) (u : String) :
    saveMRIFilename i u = some (NormalizeOneDigitNumber i ++ "-" ++ afterLastSlash u) := by
  simp [saveMRIFilename, lastString_Split]

theorem afterLastSlash_no_slash (u : String) : '/' ∉ (afterLastSlash u).data := by
  intro h
  have h1 : '/' ∈ u.data.reverse.takeWhile (fun c => c != '/') := by
    simpa [afterLastSlash] using h
  have := List.mem_takeWhile_imp h1
  simp at this

theorem afterLastSlash_append (p b : String) (hb : '/' ∉ b.data) :
    afterLastSlash (p ++ "/" ++ b) = b := by
  have := afterLast_append '/' p.data b.data hb
  apply String.ext
  simpa [afterLastSlash] using this

theorem afterLastSlash_cases (u : String) :
    ('/' ∉ u.data ∧ afterLastSlash u = u) ∨ ∃ p : String, u = p ++ "/" ++ afterLastSlash u := by
  by_cases h : '/' ∈ u.data
  · right
    obtain ⟨p, b, e, hb⟩ := exists_last_sep '/' u.data h
    have hu : u = String.mk p ++ "/" ++ String.mk b := String.ext (by simp [e])
    refine ⟨String.mk p, ?_⟩
    have := afterLastSlash_append (String.mk p) (String.mk b) hb
    rw [← hu] at this
    rw [this]
    exact hu
  · left
    refine ⟨h, String.ext ?_⟩
    simpa [afterLastSlash] using afterLast_of_not_mem '/' u.data h

/-- C2: for every ordinal and every locator the filename of `saveMRI` is defined
(`lastString` never indexes out of range on the result of `strings.Split`) and is
`NormalizeOneDigitNumber(i) ++ "-" ++ b`, where `b`, free of '/', is the portion of
the locator after its last '/': the whole locator when it holds no '/', empty when
the locator is empty or ends in '/'.  The spec's examples: ordinal 3 with
`https://cdn/x/007.mri` gives `03-007.mri`, ordinal 12 with any locator ending in
`/page.mri` gives `12-page.mri`. -/
theorem saveMRIFilename_spec :
    (∀ (i : Int) (u : String),
      saveMRIFilename i u = some (NormalizeOneDigitNumber i ++ "-" ++ afterLastSlash u) ∧
      '/' ∉ (afterLastSlash u).data ∧
      (('/' ∉ u.data ∧ afterLastSlash u = u) ∨
        ∃ p : String, u = p ++ "/" ++ afterLastSlash u) ∧
      (u = "" → afterLastSlash u = "") ∧
      (∀ p : String, u = p ++ "/" → afterLastSlash u = "")) ∧
    saveMRIFilename 3 "https://cdn/x/007.mri" = some "03-007.mri" ∧
    (∀ p : String, saveMRIFilename 12 (p ++ "/page.mri") = some "12-page.mri") := by
  refine ⟨fun i u => ⟨saveMRIFilename_eq i u, afterLastSlash_no_slash u,
    afterLastSlash_cases u, ?_, ?_⟩, by decide, ?_⟩
  · intro h
    subst h
    rfl
  · intro p h
    subst h
    have := afterLastSlash_append p "" (by simp)
    simpa using this
  · intro p
    have h := afterLastSlash_append p "page.mri" (by decide)
    have e : p ++ "/page.mri" = p ++ "/" ++ "page.mri" := String.ext (by simp)
    rw [saveMRIFilename_eq, e, h]
    rfl

/-! ## Order and distinctness of the allocated filenames -/

theorem normalize_two_digits (n : Nat) (h : n < 100) :
    (NormalizeOneDigitNumber (n : Int)).data = [digitChar (n / 10), digitChar (n % 10)] := by
  by_cases hn : n < 10
  · rw [normalize_small n hn]
    have h1 : n / 10 = 0 := by omega
    have h2 : n % 10 = n := by omega
    rw [h1, h2]
    rfl
  · rw [normalize_large n (by omega), decimalChars_two n (by omega) h]

theorem filename_data (n : Nat) (u : String) :
    ∃ a, saveMRIFilename (n : Int) u = some a ∧
      a.data = (NormalizeOneDigitNumber (n : Int)).data ++ '-' :: (afterLastSlash u).data := by
  refine ⟨_, saveMRIFilename_eq _ u, ?_⟩
  simp

theorem filename_lt (m n : Nat) (hmn : m < n) (hn : n < 100) (u v : String) :
    ∃ a b, saveMRIFilename (m : Int) u = some a ∧ saveMRIFilename (n : Int) v = some b ∧
      strLt a b := by
  obtain ⟨a, ha, hda⟩ := filename_data m u
  obtain ⟨b, hb, hdb⟩ := filename_data n v
  refine ⟨a, b, ha, hb, ?_⟩
  unfold strLt
  rw [hda, hdb, normalize_two_digits m (by omega), normalize_two_digits n hn]
  simp only [List.cons_append, List.nil_append]
  by_cases h : m / 10 < n / 10
  · exact List.Lex.rel (digitChar_lt h (by omega))
  · have e : m / 10 = n / 10 := by omega
    have h2 : m % 10 < n % 10 := by omega
    rw [e]
    exact List.Lex.cons (List.Lex.rel (digitChar_lt h2 (by omega)))

theorem pageFilenames_eq (pages : List String) :
    pageFilenames pages =
      (pages.enum.map (fun p =>
        NormalizeOneDigitNumber (p.1 : Int) ++ "-" ++ afterLastSlash p.2)).map some := by
  simp [pageFilenames, saveMRIFilename_eq]

theorem first_sep_unique (sep : Char) :
    ∀ (l1 l2 r1 r2 : List Char), sep ∉ l1 → sep ∉ l2 →
      l1 ++ sep :: r1 = l2 ++ sep :: r2 → l1 = l2 := by
  intro l1
  induction l1 with
  | nil =>
    intro l2 r1 r2 _ h2 e
    cases l2 with
    | nil => rfl
    | cons y ys =>
      simp only [List.nil_append, List.cons_append, List.cons.injEq] at e
      exact absurd (by simp [e.1]) h2
  | cons x xs ih =>
    intro l2 r1 r2 h1 h2 e
    cases l2 with
    | nil =>
      simp only [List.nil_append, List.cons_append, List.cons.injEq] at e
      exact absurd (by simp [e.1]) h1
    | cons y ys =>
      simp only [List.cons_append, List.cons.injEq] at e
      have hxs : sep ∉ xs := fun h => h1 (List.mem_cons_of_mem _ h)
      have hys : sep ∉ ys := fun h => h2 (List.mem_cons_of_mem _ h)
      rw [e.1, ih ys r1 r2 hxs hys e.2]

theorem filename_ne (m n : Nat) (hmn : m ≠ n) (u v : String) :
    ∃ a b, saveMRIFilename (m : Int) u = some a ∧ saveMRIFilename (n : Int) v = some b ∧
      a ≠ b := by
  obtain ⟨a, ha, hda⟩ := filename_data m u
  obtain ⟨b, hb, hdb⟩ := filename_data n v
  refine ⟨a, b, ha, hb, ?_⟩
  intro e
  rw [e, hdb] at hda
  have := first_sep_unique '-' _ _ _ _ (normalize_no_dash n) (normalize_no_dash m) hda
  exact hmn (normalize_injective this).symm

/-- C3: in a chapter of at most 99 pages, for ordinals `i < j` below the page count
the filename of page `i` is strictly smaller than the filename of page `j` in
lexicographic order, whatever the two locators are; the filenames in page order
are all defined and form a strictly increasing list. -/
theorem filenames_sorted (pages : List String) (hN : pages.length ≤ 99) :
    (∀ (i j : Nat) (u v : String), i < j → j < pages.length →
      ∃ a b, saveMRIFilename (i : Int) u = some a ∧ saveMRIFilename (j : Int) v = some b ∧
        strLt a b) ∧
    ∃ names : List String, pageFilenames pages = names.map some ∧
      names.length = pages.length ∧ names.Pairwise strLt := by
  refine ⟨fun i j u v hij hj => filename_lt i j hij (by omega) u v, ?_⟩
  refine ⟨_, pageFilenames_eq pages, by simp, ?_⟩
  rw [List.pairwise_map, List.pairwise_iff_get]
  intro i j hij
  have hi := i.isLt
  have hj := j.isLt
  simp only [List.enum_length] at hi hj
  obtain ⟨a, b, ha, hb, hab⟩ := filename_lt i.1 j.1 hij (by omega)
    (pages.get ⟨i.1, hi⟩) (pages.get ⟨j.1, hj⟩)
  rw [saveMRIFilename_eq] at ha hb
  simp only [Option.some.injEq] at ha hb
  simp only [List.get_eq_getElem, List.getElem_enum]
  simp only [List.get_eq_getElem] at ha hb
  rw [ha, hb]
  exact hab

/-- C3 on a chapter of three pages. -/
theorem filenames_sorted_witness :
    ∃ names : List String, pageFilenames ["x/a.mri", "x/a.mri", "b"] = names.map some ∧
      names.length = 3 ∧ names.Pairwise strLt :=
  (filenames_sorted ["x/a.mri", "x/a.mri", "b"] (by decide)).2

/-- C6: distinct non-negative ordinals get different filenames whatever the
locators are, so the destination paths `path + filename` of two pages of one
chapter differ. -/
theorem filenames_distinct (i j : Int) (hi : 0 ≤ i) (hj : 0 ≤ j) (hij : i ≠ j)
    (u v : String) :
    ∃ a b, saveMRIFilename i u = some a ∧ saveMRIFilename j v = some b ∧ a ≠ b ∧
      ∀ path : String, path ++ a ≠ path ++ b := by
  obtain ⟨m, rfl⟩ := Int.eq_ofNat_of_zero_le hi
  obtain ⟨n, rfl⟩ := Int.eq_ofNat_of_zero_le hj
  have hmn : m ≠ n := fun e => hij (by rw [e])
  obtain ⟨a, b, ha, hb, hab⟩ := filename_ne m n hmn u v
  refine ⟨a, b, ha, hb, hab, fun path e => hab ?_⟩
  have hd := congrArg String.data e
  simp only [String.data_append] at hd
  exact String.ext (List.append_cancel_left hd)

/-- C6 at ordinals 1 and 10 with the same locator. -/
theorem filenames_distinct_witness :
    ∃ a b, saveMRIFilename 1 "x/0-p" = some a ∧ saveMRIFilename 10 "x/0-p" = some b ∧ a ≠ b ∧
      ∀ path : String, path ++ a ≠ path ++ b :=
  filenames_distinct 1 10 (by decide) (by decide) (by decide) "x/0-p" "x/0-p"

/-! ## saveMRI and SaveChapter -/

theorem pagePath_eq (dir : String) (i : Nat) (u : String) :
    pagePath dir i u = dir ++ (NormalizeOneDigitNumber (i : Int) ++ "-" ++ afterLastSlash u) := by
  simp [pagePath, saveMRIFilename_eq]

theorem pagePath_ne (dir : String) (m n : Nat) (hmn : m ≠ n) (u v : String) :
    pagePath dir m u ≠ pagePath dir n v := by
  obtain ⟨a, b, ha, hb, hab⟩ := filename_ne m n hmn u v
  intro e
  simp only [pagePath, ha, hb, Option.getD_some] at e
  have hd := congrArg String.data e
  simp only [String.data_append] at hd
  exact hab (String.ext (List.append_cancel_left hd))

theorem pageSucceeds_iff (env : Env) (dir : String) (i : Nat) (u : String) (r : Response) :
    pageSucceeds env dir (i : Int) u r ↔
      env.httpGet u = .ok r ∧ r.bodyErr = none ∧ env.createErr (pagePath dir i u) = none ∧
        (r.Body = [] ∨ env.writeErr (pagePath dir i u) = none) := by
  unfold pageSucceeds
  rw [pagePath_eq]
  constructor
  · rintro ⟨h1, h2, name, h3, h4, h5⟩
    rw [saveMRIFilename_eq] at h3
    simp only [Option.some.injEq] at h3
    subst h3
    exact ⟨h1, h2, h4, h5⟩
  · rintro ⟨h1, h2, h4, h5⟩
    exact ⟨h1, h2, _, saveMRIFilename_eq _ u, h4, h5⟩

/-- One page that the environment lets through: `saveMRI` returns nil and the only
change to the files is the page's file, which holds the body. -/
theorem saveMRI_ok (env : Env) (dir : String) (i : Nat) (u : String) (r : Response)
    (fs : FileSystem) (h : pageSucceeds env dir (i : Int) u r) :
    (saveMRI env (i : Int) u dir fs).1 = .returned none ∧
    ∀ q, (saveMRI env (i : Int) u dir fs).2.files q =
      if q = pagePath dir i u then some r.Body else fs.files q := by
  obtain ⟨h1, h2, h4, h5⟩ := (pageSucceeds_iff env dir i u r).1 h
  rw [pagePath_eq] at h4 h5
  have hdirs : ∀ q, (createMangaDir env dir fs).files q = fs.files q := by
    intro q
    unfold createMangaDir
    split
    · rfl
    · split <;> rfl
  by_cases hb : r.Body = []
  · constructor
    · simp [saveMRI, h1, saveMRIFilename_eq, osCreate, h4, ioCopy, hb, h2]
    · intro q
      simp [saveMRI, h1, saveMRIFilename_eq, osCreate, h4, ioCopy, hb, h2, pagePath_eq,
        FileSystem.truncate, hdirs]
  · have hw := h5.resolve_left hb
    constructor
    · simp [saveMRI, h1, saveMRIFilename_eq, osCreate, h4, ioCopy, hb, h2, hw]
    · intro q
      simp only [saveMRI, h1, saveMRIFilename_eq, osCreate, h4, ioCopy, hb, h2, hw, pagePath_eq,
        FileSystem.truncate, FileSystem.append, hdirs, if_false]
      by_cases hq : q = dir ++ (NormalizeOneDigitNumber (i : Int) ++ "-" ++ afterLastSlash u)
      · simp [hq]
      · simp [hq, hdirs]

/-- The pages of an initial segment that the environment lets through are written
one after the other; the loop then goes on with the rest from the state reached. -/
theorem SaveChapterLoop_prefix (env : Env) (dir : String) :
    ∀ (pre post : List String) (s : Nat) (fs : FileSystem),
      (∀ j (h : j < pre.length), ∃ r, pageSucceeds env dir ((s + j : Nat) : Int) pre[j] r) →
      ∃ mid : FileSystem,
        SaveChapterLoop env dir s (pre ++ post) fs
          = SaveChapterLoop env dir (s + pre.length) post mid ∧
        (∀ q, (∀ j (h : j < pre.length), q ≠ pagePath dir (s + j) pre[j]) →
          mid.files q = fs.files q) ∧
        (∀ j (h : j < pre.length) r, env.httpGet pre[j] = .ok r →
          mid.files (pagePath dir (s + j) pre[j]) = some r.Body) := by
  intro pre
  induction pre with
  | nil =>
    intro post s fs _
    exact ⟨fs, by simp, fun q _ => rfl, fun j h => absurd h (by simp)⟩
  | cons u rest ih =>
    intro post s fs hyp
    obtain ⟨r0, hr0⟩ := hyp 0 (by simp)
    simp only [Nat.add_zero, List.getElem_cons_zero] at hr0
    obtain ⟨hret, hfiles⟩ := saveMRI_ok env dir s u r0 fs hr0
    have hyp' : ∀ j (h : j < rest.length),
        ∃ r, pageSucceeds env dir ((s + 1 + j : Nat) : Int) rest[j] r := by
      intro j h
      obtain ⟨r, hr⟩ := hyp (j + 1) (by simpa using h)
      refine ⟨r, ?_⟩
      have e : s + (j + 1) = s + 1 + j := by omega
      simpa [e] using hr
    obtain ⟨mid, hloop, hframe, hbody⟩ :=
      ih post (s + 1) (saveMRI env (s : Int) u dir fs).2 hyp'
    refine ⟨mid, ?_, ?_, ?_⟩
    · have hstep : SaveChapterLoop env dir s (u :: (rest ++ post)) fs
          = SaveChapterLoop env dir (s + 1) (rest ++ post) (saveMRI env (s : Int) u dir fs).2 := by
        rw [SaveChapterLoop]
        generalize hsv : saveMRI env (s : Int) u dir fs = res at hret
        obtain ⟨o, f⟩ := res
        simp only at hret
        subst hret
        rfl
      have e : s + (u :: rest).length = s + 1 + rest.length := by simp; omega
      rw [List.cons_append, hstep, hloop, e]
    · intro q hq
      have h0 : q ≠ pagePath dir s u := by simpa using hq 0 (by simp)
      have hrest : ∀ j (h : j < rest.length), q ≠ pagePath dir (s + 1 + j) rest[j] := by
        intro j h
        have := hq (j + 1) (by simpa using h)
        have e : s + (j + 1) = s + 1 + j := by omega
        simpa [e] using this
      rw [hframe q hrest, hfiles q, if_neg h0]
    · intro j h r hr
      cases j with
      | zero =>
        simp only [Nat.add_zero, List.getElem_cons_zero] at hr ⊢
        have hrest : ∀ j (h : j < rest.length),
            pagePath dir s u ≠ pagePath dir (s + 1 + j) rest[j] :=
          fun j _ => pagePath_ne dir s (s + 1 + j) (by omega) _ _
        rw [hframe _ hrest, hfiles, if_pos rfl]
        have : Except.ok (ε := GoError) r0 = Except.ok r := by
          rw [← hr0.1, hr]
        cases this
        rfl
      | succ j =>
        have h' : j < rest.length := by simpa using h
        have e : s + (j + 1) = s + 1 + j := by omega
        simp only [List.getElem_cons_succ] at hr ⊢
        rw [e]
        exact hbody j h' r hr

theorem filename_no_slash (i : Nat) (u : String) :
    '/' ∉ (NormalizeOneDigitNumber (i : Int) ++ "-" ++ afterLastSlash u).data := by
  have h1 := normalize_no_slash i
  have h2 := afterLastSlash_no_slash u
  simp only [String.data_append, List.mem_append, not_or]
  exact ⟨⟨h1, by decide⟩, h2⟩

theorem inDirectory_child (dir name : String) (h : '/' ∉ name.data) :
    inDirectory dir (dir ++ "/" ++ name) = true := by
  have e : (dir ++ "/" ++ name).data = (dir ++ "/").data ++ name.data := by simp
  simp only [inDirectory, e, List.drop_left, Bool.and_eq_true, List.isPrefixOf_iff_prefix,
    Bool.not_eq_true', List.contains_eq_any_beq, List.any_eq_false]
  refine ⟨List.prefix_append _ _, ?_⟩
  intro x hx hbeq
  have hxe : x = '/' := by
    have := LawfulBEq.eq_of_beq hbeq
    exact this.symm
  exact h (hxe ▸ hx)

theorem inDirectory_pagePath (path : String) (i : Nat) (u : String) :
    inDirectory path (pagePath (path ++ "/") i u) = true := by
  rw [pagePath_eq]
  exact inDirectory_child path _ (filename_no_slash i u)

theorem ncard_Iio (n : Nat) : (Set.Iio n).ncard = n := by
  rw [← Finset.coe_range, Set.ncard_coe_Finset, Finset.card_range]

/-- C4: when the environment lets every page of the chapter through and the
destination directory holds no file beforehand, `SaveChapter` returns nil and
leaves exactly `N` files in the directory: for each ordinal `i < N` the file
`path/filename(i)` holding the body fetched for locator `i`, and no other. -/
theorem SaveChapter_writes_all (env : Env) (chapter : Chapter) (path : String)
    (fs : FileSystem)
    (hok : ∀ j (h : j < chapter.Pages.length),
      ∃ r, pageSucceeds env (path ++ "/") (j : Int) chapter.Pages[j] r)
    (hempty : ∀ p, inDirectory path p = true → fs.files p = none) :
    (SaveChapter env chapter path fs).1 = .returned none ∧
    (∀ j (h : j < chapter.Pages.length), ∃ name r,
      saveMRIFilename (j : Int) chapter.Pages[j] = some name ∧
      env.httpGet chapter.Pages[j] = .ok r ∧
      inDirectory path (path ++ "/" ++ name) = true ∧
      (SaveChapter env chapter path fs).2.files (path ++ "/" ++ name) = some r.Body) ∧
    (∀ p, inDirectory path p = true → (SaveChapter env chapter path fs).2.files p ≠ none →
      ∃ j, ∃ h : j < chapter.Pages.length, ∃ name,
        saveMRIFilename (j : Int) chapter.Pages[j] = some name ∧ p = path ++ "/" ++ name) ∧
    Set.ncard {p | inDirectory path p = true ∧
      (SaveChapter env chapter path fs).2.files p ≠ none} = chapter.Pages.length := by
  have hok' : ∀ j (h : j < chapter.Pages.length),
      ∃ r, pageSucceeds env (path ++ "/") ((0 + j : Nat) : Int) chapter.Pages[j] r := by
    intro j h
    simpa using hok j h
  obtain ⟨mid, hloop, hframe, hbody⟩ :=
    SaveChapterLoop_prefix env (path ++ "/") chapter.Pages [] 0 fs hok'
  have hrun : SaveChapter env chapter path fs = (.returned none, mid) := by
    unfold SaveChapter
    have := hloop
    rw [List.append_nil] at this
    rw [this]
    rfl
  simp only [Nat.zero_add] at hframe hbody
  rw [hrun]
  have hsome : ∀ j (h : j < chapter.Pages.length),
      mid.files (pagePath (path ++ "/") j chapter.Pages[j]) ≠ none := by
    intro j h
    obtain ⟨r, hr⟩ := hok j h
    rw [hbody j h r hr.1]
    simp
  have honly : ∀ p, inDirectory path p = true → mid.files p ≠ none →
      ∃ j, ∃ h : j < chapter.Pages.length, p = pagePath (path ++ "/") j chapter.Pages[j] := by
    intro p hp hne
    by_contra hcon
    push_neg at hcon
    exact hne ((hframe p hcon).trans (hempty p hp))
  refine ⟨rfl, ?_, ?_, ?_⟩
  · intro j h
    obtain ⟨r, hr⟩ := hok j h
    refine ⟨_, r, saveMRIFilename_eq _ _, hr.1, ?_, ?_⟩
    · exact inDirectory_child path _ (filename_no_slash j _)
    · have := hbody j h r hr.1
      rw [pagePath_eq] at this
      exact this
  · intro p hp hne
    obtain ⟨j, h, e⟩ := honly p hp hne
    exact ⟨j, h, _, saveMRIFilename_eq _ _, by rw [e, pagePath_eq]⟩
  · have hset : {p | inDirectory path p = true ∧ mid.files p ≠ none}
        = (fun j => pagePath (path ++ "/") j (chapter.Pages.getD j ""))
            '' Set.Iio chapter.Pages.length := by
      ext p
      simp only [Set.mem_setOf_eq, Set.mem_image, Set.mem_Iio]
      constructor
      · rintro ⟨hp, hne⟩
        obtain ⟨j, h, e⟩ := honly p hp hne
        exact ⟨j, h, by rw [e, List.getD_eq_getElem _ _ h]⟩
      · rintro ⟨j, h, e⟩
        rw [List.getD_eq_getElem _ _ h] at e
        subst e
        exact ⟨inDirectory_pagePath path j _, hsome j h⟩
    simp only
    rw [hset, Set.ncard_image_of_injOn, ncard_Iio]
    intro a _ b _ e
    by_contra hab
    exact pagePath_ne _ a b hab _ _ e

/-- C4 on a chapter of two pages saved into an empty file system. -/
theorem SaveChapter_writes_all_witness :
    (SaveChapter (envServing 200 none) ⟨"c", "n", 1, ["h/a.mri", "h/b.mri"]⟩ "d" emptyFS).1
      = .returned none ∧
    Set.ncard {p | inDirectory "d" p = true ∧
      (SaveChapter (envServing 200 none) ⟨"c", "n", 1, ["h/a.mri", "h/b.mri"]⟩ "d"
        emptyFS).2.files p ≠ none} = 2 :=
  have h := SaveChapter_writes_all (envServing 200 none) ⟨"c", "n", 1, ["h/a.mri", "h/b.mri"]⟩
    "d" emptyFS
    (fun j hj =>
      match j, hj with
      | 0, _ => ⟨⟨200, samplePayload "h/a.mri", none⟩, rfl, rfl, _,
          saveMRIFilename_eq _ _, rfl, Or.inr rfl⟩
      | 1, _ => ⟨⟨200, samplePayload "h/b.mri", none⟩, rfl, rfl, _,
          saveMRIFilename_eq _ _, rfl, Or.inr rfl⟩
      | n + 2, hj => absurd hj (by simp))
    (fun _ _ => rfl)
  ⟨h.1, h.2.2.2⟩

theorem createMangaDir_files (env : Env) (dir : String) (fs : FileSystem) :
    (createMangaDir env dir fs).files = fs.files := by
  unfold createMangaDir
  split
  · rfl
  · split <;> rfl

/-- The failing page: `saveMRI` ends with the page's error; a failed fetch or a
failed `os.Create` leaves the files as they were, a failed copy leaves the file
it had created. -/
theorem saveMRI_fail (env : Env) (dir : String) (i : Nat) (u : String) (e : GoError)
    (fs : FileSystem) :
    (fetchFails env u e → saveMRI env (i : Int) u dir fs = (.exited e, fs)) ∧
    (createFails env dir (i : Int) u e →
      (saveMRI env (i : Int) u dir fs).1 = .exited e ∧
      (saveMRI env (i : Int) u dir fs).2.files = fs.files) ∧
    (∀ r, copyFails env dir (i : Int) u r e →
      (saveMRI env (i : Int) u dir fs).1 = .exited e ∧
      ∀ q, (saveMRI env (i : Int) u dir fs).2.files q =
        if q = pagePath dir i u then
          some (if env.writeErr (pagePath dir i u) = none then r.Body else [])
        else fs.files q) := by
  refine ⟨?_, ?_, ?_⟩
  · intro h
    unfold fetchFails at h
    simp [saveMRI, h]
  · rintro ⟨r, name, h1, h2, h3⟩
    rw [saveMRIFilename_eq] at h2
    simp only [Option.some.injEq] at h2
    subst h2
    simp [saveMRI, h1, saveMRIFilename_eq, osCreate, h3, createMangaDir_files]
  · rintro r ⟨h1, name, h2, h3, h4⟩
    rw [saveMRIFilename_eq] at h2
    simp only [Option.some.injEq] at h2
    subst h2
    rw [pagePath_eq]
    rcases h4 with ⟨hb, hw⟩ | ⟨hbw, hr⟩
    · constructor
      · simp [saveMRI, h1, saveMRIFilename_eq, osCreate, h3, ioCopy, hb, hw]
      · intro q
        simp [saveMRI, h1, saveMRIFilename_eq, osCreate, h3, ioCopy, hb, hw,
          FileSystem.truncate, createMangaDir_files]
    · by_cases hb : r.Body = []
      · constructor
        · simp [saveMRI, h1, saveMRIFilename_eq, osCreate, h3, ioCopy, hb, hr]
        · intro q
          simp [saveMRI, h1, saveMRIFilename_eq, osCreate, h3, ioCopy, hb, hr,
            FileSystem.truncate, createMangaDir_files]
      · have hw := hbw.resolve_left hb
        constructor
        · simp [saveMRI, h1, saveMRIFilename_eq, osCreate, h3, ioCopy, hb, hr, hw]
        · intro q
          simp only [saveMRI, h1, saveMRIFilename_eq, osCreate, h3, ioCopy, hb, hr, hw,
            FileSystem.truncate, FileSystem.append, createMangaDir_files, if_false, if_true]
          by_cases hq : q = dir ++ (NormalizeOneDigitNumber (i : Int) ++ "-" ++ afterLastSlash u)
          · simp [hq]
          · simp [hq]

theorem SaveChapterLoop_exited (env : Env) (dir : String) (s : Nat) (u : String)
    (post : List String) (fs : FileSystem) (e : GoError)
    (h : (saveMRI env (s : Int) u dir fs).1 = .exited e) :
    SaveChapterLoop env dir s (u :: post) fs = (.exited e, (saveMRI env (s : Int) u dir fs).2) := by
  rw [SaveChapterLoop]
  generalize saveMRI env (s : Int) u dir fs = res at h
  obtain ⟨o, f⟩ := res
  simp only at h
  subst h
  rfl

/-- C5, as the code has it: when the pages before page `k` get through and page `k`
(the locator `u` after the `k` locators `pre`) fails with `e`, `SaveChapter` ends
with exactly that error, the files of the pages before `k` hold their bodies, and
no other path is touched except possibly that of page `k`; in particular the files
of later pages are as before the call.  The file of page `k` is as before the call
when the fetch or `os.Create` failed, and exists when the copy failed. -/
theorem SaveChapter_fail_fast (env : Env) (chapter : Chapter) (path : String)
    (fs : FileSystem) (pre post : List String) (u : String) (e : GoError)
    (hpages : chapter.Pages = pre ++ u :: post)
    (hbefore : ∀ j (h : j < pre.length),
      ∃ r, pageSucceeds env (path ++ "/") (j : Int) pre[j] r)
    (hfail : fetchFails env u e ∨ createFails env (path ++ "/") (pre.length : Int) u e ∨
      ∃ r, copyFails env (path ++ "/") (pre.length : Int) u r e) :
    (SaveChapter env chapter path fs).1.err = some e ∧
    (∀ j (h : j < pre.length) r, env.httpGet pre[j] = .ok r →
      (SaveChapter env chapter path fs).2.files (pagePath (path ++ "/") j pre[j])
        = some r.Body) ∧
    (∀ j (h : j < post.length),
      (SaveChapter env chapter path fs).2.files
          (pagePath (path ++ "/") (pre.length + 1 + j) post[j])
        = fs.files (pagePath (path ++ "/") (pre.length + 1 + j) post[j])) ∧
    (∀ q, (∀ j (h : j < pre.length), q ≠ pagePath (path ++ "/") j pre[j]) →
      q ≠ pagePath (path ++ "/") pre.length u →
      (SaveChapter env chapter path fs).2.files q = fs.files q) ∧
    (fetchFails env u e ∨ createFails env (path ++ "/") (pre.length : Int) u e →
      (SaveChapter env chapter path fs).2.files (pagePath (path ++ "/") pre.length u)
        = fs.files (pagePath (path ++ "/") pre.length u)) ∧
    (∀ r, copyFails env (path ++ "/") (pre.length : Int) u r e →
      (SaveChapter env chapter path fs).2.files (pagePath (path ++ "/") pre.length u)
        ≠ none) := by
  have hok' : ∀ j (h : j < pre.length),
      ∃ r, pageSucceeds env (path ++ "/") ((0 + j : Nat) : Int) pre[j] r := by
    intro j h
    simpa using hbefore j h
  obtain ⟨mid, hloop, hframe, hbody⟩ :=
    SaveChapterLoop_prefix env (path ++ "/") pre (u :: post) 0 fs hok'
  simp only [Nat.zero_add] at hframe hbody hloop
  obtain ⟨hf1, hf2, hf3⟩ := saveMRI_fail env (path ++ "/") pre.length u e mid
  have hexit : (saveMRI env (pre.length : Int) u (path ++ "/") mid).1 = .exited e := by
    rcases hfail with h | h | ⟨r, h⟩
    · rw [hf1 h]
    · exact (hf2 h).1
    · exact (hf3 r h).1
  have hrun : SaveChapter env chapter path fs
      = (.exited e, (saveMRI env (pre.length : Int) u (path ++ "/") mid).2) := by
    unfold SaveChapter
    rw [hpages, hloop]
    exact SaveChapterLoop_exited env _ _ u post mid e hexit
  have hother : ∀ q, q ≠ pagePath (path ++ "/") pre.length u →
      (saveMRI env (pre.length : Int) u (path ++ "/") mid).2.files q = mid.files q := by
    intro q hq
    rcases hfail with h | h | ⟨r, h⟩
    · rw [hf1 h]
    · rw [(hf2 h).2]
    · rw [(hf3 r h).2 q, if_neg hq]
  have hk : ∀ j (h : j < pre.length),
      pagePath (path ++ "/") pre.length u ≠ pagePath (path ++ "/") j pre[j] :=
    fun j h => pagePath_ne _ _ _ (by omega) _ _
  rw [hrun]
  refine ⟨rfl, ?_, ?_, ?_, ?_, ?_⟩
  · intro j h r hr
    rw [hother _ (fun e' => hk j h e'.symm)]
    exact hbody j h r hr
  · intro j h
    rw [hother _ (pagePath_ne _ _ _ (by omega) _ _)]
    exact hframe _ (fun j' h' => pagePath_ne _ _ _ (by omega) _ _)
  · intro q hq hqk
    rw [hother q hqk]
    exact hframe q hq
  · intro h
    have hsame : (saveMRI env (pre.length : Int) u (path ++ "/") mid).2.files = mid.files := by
      rcases h with h | h
      · rw [hf1 h]
      · exact (hf2 h).2
    rw [hsame]
    exact hframe _ hk
  · intro r h
    rw [(hf3 r h).2, if_pos rfl]
    simp

/-- C5 (amended) on a chapter of two pages whose second body breaks off. -/
theorem SaveChapter_fail_fast_witness :
    (SaveChapter (envBreaking "h/b.mri") ⟨"c", "n", 1, ["h/a.mri", "h/b.mri"]⟩ "d"
      emptyFS).1.err = some "unexpected EOF" :=
  (SaveChapter_fail_fast (envBreaking "h/b.mri") ⟨"c", "n", 1, ["h/a.mri", "h/b.mri"]⟩ "d"
    emptyFS ["h/a.mri"] [] "h/b.mri" "unexpected EOF" rfl
    (fun j hj =>
      match j, hj with
      | 0, _ => ⟨⟨200, samplePayload "h/a.mri", none⟩, rfl, rfl, _,
          saveMRIFilename_eq _ _, rfl, Or.inr rfl⟩
      | n + 1, hj => absurd hj (by simp))
    (Or.inr (Or.inr ⟨⟨200, [1, 2], some "unexpected EOF"⟩, rfl, _,
      saveMRIFilename_eq _ _, rfl, Or.inr ⟨Or.inr rfl, rfl⟩⟩))).1

/-- C5 as stated fails: the only page of the chapter is answered but its body
breaks off, so page 0 is the first page to fail.  `SaveChapter` does not return
an error to its caller (`log.Fatal` ends the process), and the file of page 0
exists, holding the bytes received. -/
theorem SaveChapter_fail_fast_counterexample :
    copyFails (envServing 200 (some "unexpected EOF")) "d/" 0 "h/p.mri"
      ⟨200, samplePayload "h/p.mri", some "unexpected EOF"⟩ "unexpected EOF" ∧
    (SaveChapter (envServing 200 (some "unexpected EOF")) ⟨"c", "n", 1, ["h/p.mri"]⟩ "d"
      emptyFS).1 = .exited "unexpected EOF" ∧
    (SaveChapter (envServing 200 (some "unexpected EOF")) ⟨"c", "n", 1, ["h/p.mri"]⟩ "d"
      emptyFS).2.files "d/00-p.mri" = some (samplePayload "h/p.mri") := by
  refine ⟨⟨rfl, _, saveMRIFilename_eq _ _, rfl, Or.inr ⟨Or.inr rfl, rfl⟩⟩, ?_, ?_⟩
  · decide
  · decide

/-- C10 as stated fails: the locator is answered with status 404, `saveMRI` (and
with it `SaveChapter`) returns nil, and the body of the 404 response is the
content of the page's file. -/
theorem saveMRI_status_counterexample :
    (∃ r, (envServing 404 none).httpGet "h/p.mri" = .ok r ∧ r.StatusCode = 404 ∧
      r.Body = samplePayload "h/p.mri") ∧
    (saveMRI (envServing 404 none) 0 "h/p.mri" "d/" emptyFS).1 = .returned none ∧
    (SaveChapter (envServing 404 none) ⟨"c", "n", 1, ["h/p.mri"]⟩ "d" emptyFS).1
      = .returned none ∧
    (SaveChapter (envServing 404 none) ⟨"c", "n", 1, ["h/p.mri"]⟩ "d" emptyFS).2.files
      "d/00-p.mri" = some (samplePayload "h/p.mri") := by
  refine ⟨⟨_, rfl, rfl, rfl⟩, ?_, ?_, ?_⟩ <;> decide

/-- C10, as the code has it: the page fetch fails exactly when `http.Get` itself
reports an error, and then `saveMRI` ends with that error and changes no file.  A
response is accepted whatever its status code: when its body arrives completely
and the file can be created and written, `saveMRI` returns nil and the body is
the content of the page's file. -/
theorem saveMRI_fetch_outcome (env : Env) (dir : String) (i : Nat) (u : String)
    (fs : FileSystem) :
    (∀ e, env.httpGet u = .error e →
      (saveMRI env (i : Int) u dir fs).1.err = some e ∧
      (saveMRI env (i : Int) u dir fs).2.files = fs.files) ∧
    (∀ (status : Nat) (body : Bytes),
      pageSucceeds env dir (i : Int) u ⟨status, body, none⟩ →
      (saveMRI env (i : Int) u dir fs).1 = .returned none ∧
      (saveMRI env (i : Int) u dir fs).2.files (pagePath dir i u) = some body) := by
  refine ⟨fun e h => ?_, fun status body h => ?_⟩
  · rw [(saveMRI_fail env dir i u e fs).1 h]
    exact ⟨rfl, rfl⟩
  · obtain ⟨h1, h2⟩ := saveMRI_ok env dir i u _ fs h
    exact ⟨h1, by rw [h2, if_pos rfl]⟩

/-- C10 (amended) at a locator answered with status 500. -/
theorem saveMRI_fetch_outcome_witness :
    (saveMRI (envServing 500 none) 7 "h/p.mri" "d/" emptyFS).1 = .returned none ∧
    (saveMRI (envServing 500 none) 7 "h/p.mri" "d/" emptyFS).2.files
      (pagePath "d/" 7 "h/p.mri") = some (samplePayload "h/p.mri") :=
  (saveMRI_fetch_outcome (envServing 500 none) "d/" 7 "h/p.mri" emptyFS).2 500
    (samplePayload "h/p.mri") ⟨rfl, rfl, _, saveMRIFilename_eq _ _, rfl, Or.inr rfl⟩

/-! ## The output path of ConvertMRItoPNG -/

theorem TrimSuffix_append (a suffix : String) : TrimSuffix (a ++ suffix) suffix = a := by
  have h : suffix.data.isSuffixOf (a ++ suffix).data = true := by
    rw [List.isSuffixOf_iff_suffix]
    simp
  unfold TrimSuffix
  rw [if_pos h]
  apply String.ext
  simp

theorem TrimSuffix_of_not_suffix (s suffix : String) (h : ¬ suffix.data <:+ s.data) :
    TrimSuffix s suffix = s := by
  have h' : ¬ suffix.data.isSuffixOf s.data = true := by
    rw [List.isSuffixOf_iff_suffix]
    exact h
  unfold TrimSuffix
  rw [if_neg h']

theorem mri_suffix_of_path (dir name : String)
    (h : ".mri".data <:+ (dir ++ "/" ++ name).data) : ".mri".data <:+ name.data := by
  have e : (dir ++ "/" ++ name).data = dir.data ++ ('/' :: name.data) := by simp
  rw [e] at h
  have hn : name.data <:+ dir.data ++ ('/' :: name.data) :=
    ⟨dir.data ++ ['/'], by simp⟩
  have hs : ('/' :: name.data) <:+ dir.data ++ ('/' :: name.data) := List.suffix_append _ _
  by_cases hl : ".mri".data.length ≤ name.data.length
  · exact List.suffix_of_suffix_length_le h hn hl
  · have h4 : ".mri".data.length = 4 := rfl
    have hl' : ('/' :: name.data).length ≤ ".mri".data.length := by
      rw [h4] at hl ⊢
      rw [List.length_cons]
      omega
    have hsub := List.suffix_of_suffix_length_le hs h hl'
    have hmem : '/' ∈ ".mri".data := hsub.subset (List.mem_cons_self _ _)
    exact absurd hmem (by decide)

theorem convertOut_ne_input (path name : String) : convertOut path name ≠ path ++ name := by
  intro e
  by_cases h : ".mri".data <:+ (path ++ name).data
  · obtain ⟨t, ht⟩ := h
    have hs : path ++ name = String.mk t ++ ".mri" := String.ext (by simp [← ht])
    rw [convertOut, hs, TrimSuffix_append] at e
    have hd := congrArg String.data e
    simp only [String.data_append] at hd
    exact absurd (List.append_cancel_left hd) (by decide)
  · rw [convertOut, TrimSuffix_of_not_suffix _ _ h] at e
    have hd := congrArg (fun x => x.data.length) e
    simp at hd

/-- C7 as stated fails: the entry `a.jpg` of the directory `d/` is converted into
`d/a.jpg.png`; its suffix is not replaced and no file `d/a.png` is written. -/
theorem convertOut_counterexample :
    convertOut "d/" "a.jpg" = "d/a.jpg.png" ∧
    convertOut "d/" "a.jpg" ≠ "d/" ++ "a" ++ ".png" ∧
    (ConvertMRItoPNG (envListing ["a.jpg"]) "d/" (fsWith [("d/a.jpg", [1, 2, 3])])).1
      = .returned none ∧
    (ConvertMRItoPNG (envListing ["a.jpg"]) "d/" (fsWith [("d/a.jpg", [1, 2, 3])])).2.files
      "d/a.jpg.png" = some [1, 2, 3] ∧
    (ConvertMRItoPNG (envListing ["a.jpg"]) "d/" (fsWith [("d/a.jpg", [1, 2, 3])])).2.files
      "d/a.png" = none := by
  refine ⟨?_, ?_, ?_, ?_, ?_⟩ <;> decide

/-- The output path for a directory passed as `dir/`: `dir/base.png` for the name
`base.mri`, the whole name with `.png` appended for a name that does not end in
`.mri`; a path directly inside `dir` for a name without '/'. -/
theorem convertOut_spec (dir name : String) :
    (∀ base : String, name = base ++ ".mri" →
      convertOut (dir ++ "/") name = dir ++ "/" ++ base ++ ".png") ∧
    (¬ ".mri".data <:+ name.data →
      convertOut (dir ++ "/") name = dir ++ "/" ++ name ++ ".png") ∧
    ('/' ∉ name.data → inDirectory dir (convertOut (dir ++ "/") name) = true) := by
  have hA : ∀ base : String, name = base ++ ".mri" →
      convertOut (dir ++ "/") name = dir ++ "/" ++ base ++ ".png" := by
    intro base hb
    subst hb
    have e : dir ++ "/" ++ (base ++ ".mri") = dir ++ "/" ++ base ++ ".mri" :=
      (String.append_assoc _ _ _).symm
    rw [convertOut, e, TrimSuffix_append]
  have hB : ¬ ".mri".data <:+ name.data →
      convertOut (dir ++ "/") name = dir ++ "/" ++ name ++ ".png" := by
    intro hn
    rw [convertOut, TrimSuffix_of_not_suffix _ _ (fun h => hn (mri_suffix_of_path dir name h))]
  refine ⟨hA, hB, ?_⟩
  intro hslash
  by_cases h : ".mri".data <:+ name.data
  · obtain ⟨t, ht⟩ := h
    have hs : name = String.mk t ++ ".mri" := String.ext (by simp [← ht])
    rw [hA _ hs, String.append_assoc]
    apply inDirectory_child
    have ht' : '/' ∉ t := fun hm => hslash (by rw [← ht]; exact List.mem_append_left _ hm)
    simp only [String.data_append, List.mem_append, not_or]
    exact ⟨ht', by decide⟩
  · rw [hB h, String.append_assoc]
    apply inDirectory_child
    simp only [String.data_append, List.mem_append, not_or]
    exact ⟨hslash, by decide⟩

/-! ## The loop of ConvertMRItoPNG -/

/-- One entry changes at most the file at its output path, and that file exists
afterwards whenever it existed before. -/
theorem convertEntry_files (env : Env) (path name : String) (fs : FileSystem) :
    (∀ q, q ≠ convertOut path name →
      (convertEntry env path name fs).2.files q = fs.files q) ∧
    (∀ q, fs.files q ≠ none → (convertEntry env path name fs).2.files q ≠ none) ∧
    ((convertEntry env path name fs).1 = .returned () →
      (convertEntry env path name fs).2.files (convertOut path name) ≠ none) := by
  cases hopen : osOpen env (path ++ name) fs with
  | error e => simp [convertEntry, hopen]
  | ok r =>
    cases hdec : imageDecode env r with
    | error e => simp [convertEntry, hopen, hdec]
    | ok img =>
      cases hcr : env.createErr (convertOut path name) with
      | some e => simp [convertEntry, hopen, hdec, osCreate, hcr]
      | none =>
        cases henc : env.encode img with
        | error e =>
          simp only [convertEntry, hopen, hdec, osCreate, hcr, pngEncode, henc,
            FileSystem.truncate]
          refine ⟨fun q hq => by simp [hq], fun q hq => ?_, fun h => by simp at h⟩
          by_cases h : q = convertOut path name <;> simp [h, hq]
        | ok bytes =>
          cases hw : env.writeErr (convertOut path name) with
          | some e =>
            simp only [convertEntry, hopen, hdec, osCreate, hcr, pngEncode, henc, hw,
              FileSystem.truncate]
            refine ⟨fun q hq => by simp [hq], fun q hq => ?_, fun h => by simp at h⟩
            by_cases h : q = convertOut path name <;> simp [h, hq]
          | none =>
            simp only [convertEntry, hopen, hdec, osCreate, hcr, pngEncode, henc, hw,
              FileSystem.truncate, FileSystem.append]
            refine ⟨fun q hq => by simp [hq], fun q hq => ?_, fun _ => by simp⟩
            by_cases h : q = convertOut path name <;> simp [h, hq]

theorem ConvertLoop_cons (env : Env) (path name : String) (rest : List String)
    (fs : FileSystem) :
    ((convertEntry env path name fs).1 = .returned () →
      ConvertLoop env path (name :: rest) fs
        = ConvertLoop env path rest (convertEntry env path name fs).2) ∧
    ((convertEntry env path name fs).1 ≠ .returned () →
      (ConvertLoop env path (name :: rest) fs).1 ≠ .returned none ∧
      (ConvertLoop env path (name :: rest) fs).2 = (convertEntry env path name fs).2) := by
  rw [ConvertLoop]
  generalize convertEntry env path name fs = res
  obtain ⟨o, f⟩ := res
  cases o with
  | returned v => cases v; simp
  | exited msg => simp
  | panicked => simp

theorem ConvertLoop_files (env : Env) (path : String) :
    ∀ (files : List String) (fs : FileSystem),
      (∀ q, (∀ name ∈ files, q ≠ convertOut path name) →
        (ConvertLoop env path files fs).2.files q = fs.files q) ∧
      (∀ q, fs.files q ≠ none → (ConvertLoop env path files fs).2.files q ≠ none) ∧
      ((ConvertLoop env path files fs).1 = .returned none →
        ∀ name ∈ files, (ConvertLoop env path files fs).2.files (convertOut path name) ≠ none) := by
  intro files
  induction files with
  | nil =>
    intro fs
    exact ⟨fun q _ => rfl, fun q h => h, fun _ name h => absurd h (by simp)⟩
  | cons n rest ih =>
    intro fs
    obtain ⟨e1, e2, e3⟩ := convertEntry_files env path n fs
    obtain ⟨c1, c2⟩ := ConvertLoop_cons env path n rest fs
    by_cases hret : (convertEntry env path n fs).1 = .returned ()
    · obtain ⟨i1, i2, i3⟩ := ih (convertEntry env path n fs).2
      rw [c1 hret]
      refine ⟨fun q hq => ?_, fun q hq => i2 q (e2 q hq), fun hok name hname => ?_⟩
      · rw [i1 q (fun name hname => hq name (List.mem_cons_of_mem _ hname))]
        exact e1 q (hq n (List.mem_cons_self _ _))
      · rcases List.mem_cons.1 hname with h | h
        · subst h
          exact i2 _ (e3 hret)
        · exact i3 hok name h
    · obtain ⟨d1, d2⟩ := c2 hret
      rw [d2]
      refine ⟨fun q hq => e1 q (hq n (List.mem_cons_self _ _)), e2, fun hok => absurd hok d1⟩

theorem ConvertLoop_append (env : Env) (path : String) :
    ∀ (pre rest : List String) (fs mid : FileSystem),
      ConvertLoop env path pre fs = (.returned none, mid) →
      ConvertLoop env path (pre ++ rest) fs = ConvertLoop env path rest mid := by
  intro pre
  induction pre with
  | nil =>
    intro rest fs mid h
    simp only [ConvertLoop, Prod.mk.injEq, true_and] at h
    subst h
    rfl
  | cons n pre' ih =>
    intro rest fs mid h
    obtain ⟨c1, c2⟩ := ConvertLoop_cons env path n pre' fs
    by_cases hret : (convertEntry env path n fs).1 = .returned ()
    · rw [c1 hret] at h
      rw [List.cons_append, (ConvertLoop_cons env path n (pre' ++ rest) fs).1 hret]
      exact ih rest _ mid h
    · have := (c2 hret).1
      rw [h] at this
      exact absurd rfl this

/-- An entry whose open, decode, create and encode all succeed: the iteration ends
normally and the only change is the output file, which holds the encoder's
bytes. -/
theorem convertEntry_ok (env : Env) (path name : String) (fs : FileSystem)
    (content : Bytes) (img : Image) (bytes : Bytes)
    (hopen : osOpen env (path ++ name) fs = .ok (.ok content))
    (hdec : env.decode content = .ok img)
    (hcreate : env.createErr (convertOut path name) = none)
    (henc : env.encode img = .ok bytes)
    (hwrite : env.writeErr (convertOut path name) = none) :
    (convertEntry env path name fs).1 = .returned () ∧
    ∀ q, (convertEntry env path name fs).2.files q =
      if q = convertOut path name then some bytes else fs.files q := by
  have hd : imageDecode env (.ok content) = .ok img := by
    simp only [imageDecode, hdec]
  constructor
  · simp [convertEntry, hopen, hd, osCreate, hcreate, pngEncode, henc, hwrite]
  · intro q
    simp only [convertEntry, hopen, hd, osCreate, hcreate, pngEncode, henc, hwrite,
      FileSystem.truncate, FileSystem.append]
    by_cases hq : q = convertOut path name
    · simp [hq]
    · simp [hq]

/-- C7, as the code has it: the directory is passed as `dir/` and lists the entry
`base.mri` after the entries `pre`, which are converted, reaching the state
`mid`.  When the entry is opened, decoded and encoded without failure,
`ConvertMRItoPNG` creates `dir/base.png` (the suffix `.mri` replaced by `.png`, a
file directly inside `dir` when `base` holds no '/') and writes the PNG bytes
of the decoded image into it, changing no other file in that iteration; the
file still holds these bytes at the end of the run unless a later entry has the
same output path. -/
theorem ConvertMRItoPNG_writes_png (env : Env) (dir base : String) (fs mid : FileSystem)
    (pre post : List String) (content : Bytes) (img : Image) (bytes : Bytes)
    (hdir : env.readDir (dir ++ "/") = .ok (pre ++ (base ++ ".mri") :: post))
    (hpre : ConvertLoop env (dir ++ "/") pre fs = (.returned none, mid))
    (hopen : osOpen env (dir ++ "/" ++ (base ++ ".mri")) mid = .ok (.ok content))
    (hdec : env.decode content = .ok img)
    (hcreate : env.createErr (dir ++ "/" ++ base ++ ".png") = none)
    (henc : env.encode img = .ok bytes)
    (hwrite : env.writeErr (dir ++ "/" ++ base ++ ".png") = none) :
    convertOut (dir ++ "/") (base ++ ".mri") = dir ++ "/" ++ base ++ ".png" ∧
    ('/' ∉ base.data → inDirectory dir (dir ++ "/" ++ base ++ ".png") = true) ∧
    (ConvertLoop env (dir ++ "/") (pre ++ [base ++ ".mri"]) fs).1 = .returned none ∧
    (∀ q, (ConvertLoop env (dir ++ "/") (pre ++ [base ++ ".mri"]) fs).2.files q =
      if q = dir ++ "/" ++ base ++ ".png" then some bytes else mid.files q) ∧
    ((∀ n ∈ post, convertOut (dir ++ "/") n ≠ dir ++ "/" ++ base ++ ".png") →
      (ConvertMRItoPNG env (dir ++ "/") fs).2.files (dir ++ "/" ++ base ++ ".png")
        = some bytes) := by
  have hout : convertOut (dir ++ "/") (base ++ ".mri") = dir ++ "/" ++ base ++ ".png" :=
    (convertOut_spec dir (base ++ ".mri")).1 base rfl
  rw [← hout] at hcreate hwrite
  obtain ⟨hret, hfiles⟩ :=
    convertEntry_ok env (dir ++ "/") (base ++ ".mri") mid content img bytes hopen hdec
      hcreate henc hwrite
  have hstep : ConvertLoop env (dir ++ "/") (pre ++ [base ++ ".mri"]) fs
      = (.returned none, (convertEntry env (dir ++ "/") (base ++ ".mri") mid).2) := by
    rw [ConvertLoop_append env (dir ++ "/") pre [base ++ ".mri"] fs mid hpre,
      (ConvertLoop_cons env (dir ++ "/") (base ++ ".mri") [] mid).1 hret]
    rfl
  refine ⟨hout, ?_, ?_, ?_, ?_⟩
  · intro hb
    rw [String.append_assoc]
    apply inDirectory_child
    simp only [String.data_append, List.mem_append, not_or]
    exact ⟨hb, by decide⟩
  · rw [hstep]
  · intro q
    rw [hstep, ← hout]
    exact hfiles q
  · intro hlater
    have hrun : ConvertMRItoPNG env (dir ++ "/") fs
        = ConvertLoop env (dir ++ "/") post
            (convertEntry env (dir ++ "/") (base ++ ".mri") mid).2 := by
      simp only [ConvertMRItoPNG, hdir]
      rw [ConvertLoop_append env (dir ++ "/") pre ((base ++ ".mri") :: post) fs mid hpre,
        (ConvertLoop_cons env (dir ++ "/") (base ++ ".mri") post mid).1 hret]
    rw [hrun, (ConvertLoop_files env (dir ++ "/") post _).1 _
      (fun n hn e => hlater n hn e.symm), ← hout, hfiles, if_pos rfl]

/-- C7 (amended) on the directory `d/` with the entries `a.mri` and `b.mri`: the
second entry is written to `d/b.png`. -/
theorem ConvertMRItoPNG_writes_png_witness :
    (ConvertMRItoPNG (envListing ["a.mri", "b.mri"]) ("d" ++ "/")
      (fsWith [("d/a.mri", [1]), ("d/b.mri", [2, 3])])).2.files ("d" ++ "/" ++ "b" ++ ".png")
      = some [2, 3] :=
  (ConvertMRItoPNG_writes_png (envListing ["a.mri", "b.mri"]) "d" "b"
    (fsWith [("d/a.mri", [1]), ("d/b.mri", [2, 3])])
    (ConvertLoop (envListing ["a.mri", "b.mri"]) ("d" ++ "/") ["a.mri"]
      (fsWith [("d/a.mri", [1]), ("d/b.mri", [2, 3])])).2
    ["a.mri"] [] [2, 3] ⟨1, 2, [2, 3]⟩ [2, 3] rfl rfl rfl rfl rfl rfl rfl).2.2.2.2
    (fun n hn => absurd hn (by simp))

/-- C8 as stated fails: the directory `d/` lists `a.mri` and `a.png`; the output
path of `a.mri` is the path of the entry `a.png`, and the run, which returns nil,
replaces the content of that input. -/
theorem ConvertMRItoPNG_inputs_counterexample :
    convertOut "d/" "a.mri" = "d/" ++ "a.png" ∧
    (ConvertMRItoPNG (envListing ["a.mri", "a.png"]) "d/"
      (fsWith [("d/a.mri", [1]), ("d/a.png", [2])])).1 = .returned none ∧
    (fsWith [("d/a.mri", [1]), ("d/a.png", [2])]).files "d/a.png" = some [2] ∧
    (ConvertMRItoPNG (envListing ["a.mri", "a.png"]) "d/"
      (fsWith [("d/a.mri", [1]), ("d/a.png", [2])])).2.files "d/a.png" = some [1] := by
  refine ⟨?_, ?_, ?_, ?_⟩ <;> decide

/-- C8, as the code has it: `ConvertMRItoPNG` deletes no file and writes only at the
output paths of the listed entries.  The output path of an entry is never the
path of that entry itself, so when in addition no entry is named like the output
of another, every input is left as it was.  After a run that returns nil every
entry has its output file, and when the outputs are pairwise different paths
that did not exist before, the run has created exactly one new file per entry. -/
theorem ConvertMRItoPNG_inputs (env : Env) (path : String) (fs : FileSystem)
    (files : List String) (hdir : env.readDir path = .ok files) :
    (∀ name, convertOut path name ≠ path ++ name) ∧
    (∀ q, (∀ name ∈ files, q ≠ convertOut path name) →
      (ConvertMRItoPNG env path fs).2.files q = fs.files q) ∧
    (∀ q, fs.files q ≠ none → (ConvertMRItoPNG env path fs).2.files q ≠ none) ∧
    ((∀ n ∈ files, ∀ m ∈ files, convertOut path n ≠ path ++ m) →
      ∀ m ∈ files, (ConvertMRItoPNG env path fs).2.files (path ++ m) = fs.files (path ++ m)) ∧
    ((ConvertMRItoPNG env path fs).1 = .returned none →
      (∀ name ∈ files, (ConvertMRItoPNG env path fs).2.files (convertOut path name) ≠ none) ∧
      ((∀ name ∈ files, fs.files (convertOut path name) = none) →
        (files.map (convertOut path)).Nodup →
        Set.ncard {q | fs.files q = none ∧ (ConvertMRItoPNG env path fs).2.files q ≠ none}
          = files.length)) := by
  have hrun : ConvertMRItoPNG env path fs = ConvertLoop env path files fs := by
    simp [ConvertMRItoPNG, hdir]
  obtain ⟨m1, m2, m3⟩ := ConvertLoop_files env path files fs
  rw [hrun]
  refine ⟨convertOut_ne_input path, m1, m2, ?_, ?_⟩
  · intro hno m hm
    exact m1 _ (fun n hn e => hno n hn m hm e.symm)
  · intro hok
    refine ⟨m3 hok, ?_⟩
    intro hfresh hnodup
    have hset : {q | fs.files q = none ∧ (ConvertLoop env path files fs).2.files q ≠ none}
        = ((files.map (convertOut path)).toFinset : Set String) := by
      ext q
      simp only [Set.mem_setOf_eq, Finset.mem_coe, List.mem_toFinset, List.mem_map]
      constructor
      · rintro ⟨h0, h1⟩
        by_contra hcon
        push_neg at hcon
        exact h1 ((m1 q (fun name hname e => hcon name hname e.symm)).trans h0)
      · rintro ⟨name, hname, rfl⟩
        exact ⟨hfresh name hname, m3 hok name hname⟩
    rw [hset, Set.ncard_coe_Finset, List.toFinset_card_of_nodup hnodup, List.length_map]

/-- C8 (amended) on a directory of two `.mri` files. -/
theorem ConvertMRItoPNG_inputs_witness :
    (ConvertMRItoPNG (envListing ["a.mri", "b.mri"]) "d/"
      (fsWith [("d/a.mri", [1]), ("d/b.mri", [2])])).2.files ("d/" ++ "a.mri")
      = (fsWith [("d/a.mri", [1]), ("d/b.mri", [2])]).files ("d/" ++ "a.mri") :=
  (ConvertMRItoPNG_inputs (envListing ["a.mri", "b.mri"]) "d/"
    (fsWith [("d/a.mri", [1]), ("d/b.mri", [2])]) ["a.mri", "b.mri"] rfl).2.2.2.1
    (by decide) "a.mri" (by decide)

theorem err_ne_none (o : Outcome (Option GoError)) (h : o ≠ .returned none) :
    o.err ≠ none := by
  cases o with
  | returned v =>
    cases v with
    | none => exact absurd rfl h
    | some e => simp [Outcome.err]
  | exited msg => simp [Outcome.err]
  | panicked => simp [Outcome.err]

/-- The failing entry: the iteration does not end normally; only a failed encode
leaves a trace, the output file it had created. -/
theorem convertEntry_fail (env : Env) (path name : String) (fs : FileSystem) :
    (entryOpenFails env path name fs ∨ entryDecodeFails env path name fs ∨
        entryCreateFails env path name fs →
      (convertEntry env path name fs).1 ≠ .returned () ∧
      (convertEntry env path name fs).2 = fs) ∧
    (entryEncodeFails env path name fs →
      (convertEntry env path name fs).1 ≠ .returned () ∧
      (convertEntry env path name fs).2.files (convertOut path name) = some []) := by
  constructor
  · rintro (⟨e, h⟩ | ⟨r, e, h1, h2⟩ | ⟨r, img, e, h1, h2, h3⟩)
    · simp [convertEntry, h]
    · simp [convertEntry, h1, h2]
    · simp [convertEntry, h1, h2, osCreate, h3]
  · rintro ⟨r, img, h1, h2, h3, (⟨e, h4⟩ | ⟨bytes, e, h4, h5⟩)⟩
    · simp [convertEntry, h1, h2, osCreate, h3, pngEncode, h4, FileSystem.truncate]
    · simp [convertEntry, h1, h2, osCreate, h3, pngEncode, h4, h5, FileSystem.truncate]

/-- C9 as stated fails: the encoder fails on the first entry `a.mri`.  The run
does not return the error to its caller (`log.Fatal` ends the process), and an
output for the failing entry has been produced: the empty file `d/a.png`. -/
theorem ConvertMRItoPNG_aborts_counterexample :
    entryEncodeFails (envEncodeFailing ["a.mri", "b.mri"]) "d/" "a.mri"
      (fsWith [("d/a.mri", [1]), ("d/b.mri", [2])]) ∧
    (ConvertMRItoPNG (envEncodeFailing ["a.mri", "b.mri"]) "d/"
      (fsWith [("d/a.mri", [1]), ("d/b.mri", [2])])).1 = .exited "Could not encode png" ∧
    (fsWith [("d/a.mri", [1]), ("d/b.mri", [2])]).files "d/a.png" = none ∧
    (ConvertMRItoPNG (envEncodeFailing ["a.mri", "b.mri"]) "d/"
      (fsWith [("d/a.mri", [1]), ("d/b.mri", [2])])).2.files "d/a.png" = some [] := by
  refine ⟨⟨.ok [1], ⟨1, 1, [1]⟩, rfl, rfl, rfl, Or.inl ⟨_, rfl⟩⟩, ?_, ?_, ?_⟩ <;> decide

/-- C9, as the code has it: when the entries before entry `j` (the name after the
names `pre`) are converted, reaching the state `mid`, and entry `j` cannot be
opened, decoded, created or encoded, `ConvertMRItoPNG` ends with an error at
that entry and does not go on: apart from the output path of entry `j` every
file is as in `mid`, so no later entry produces output.  When the open, the
decode or the create failed nothing at all was written for entry `j`; when the
encode failed, the output file of entry `j` had been created and stays. -/
theorem ConvertMRItoPNG_aborts (env : Env) (path : String) (fs mid : FileSystem)
    (pre post : List String) (name : String)
    (hdir : env.readDir path = .ok (pre ++ name :: post))
    (hpre : ConvertLoop env path pre fs = (.returned none, mid))
    (hfail : (entryOpenFails env path name mid ∨ entryDecodeFails env path name mid ∨
      entryCreateFails env path name mid) ∨ entryEncodeFails env path name mid) :
    (ConvertMRItoPNG env path fs).1.err ≠ none ∧
    (∀ q, q ≠ convertOut path name → (ConvertMRItoPNG env path fs).2.files q = mid.files q) ∧
    (entryOpenFails env path name mid ∨ entryDecodeFails env path name mid ∨
        entryCreateFails env path name mid →
      (ConvertMRItoPNG env path fs).2 = mid) ∧
    (entryEncodeFails env path name mid →
      (ConvertMRItoPNG env path fs).2.files (convertOut path name) ≠ none) := by
  have hrun : ConvertMRItoPNG env path fs = ConvertLoop env path (name :: post) mid := by
    simp [ConvertMRItoPNG, hdir, ConvertLoop_append env path pre (name :: post) fs mid hpre]
  obtain ⟨f1, f2⟩ := convertEntry_fail env path name mid
  have hnot : (convertEntry env path name mid).1 ≠ .returned () := by
    rcases hfail with h | h
    · exact (f1 h).1
    · exact (f2 h).1
  obtain ⟨d1, d2⟩ := (ConvertLoop_cons env path name post mid).2 hnot
  rw [hrun]
  refine ⟨err_ne_none _ d1, ?_, ?_, ?_⟩
  · intro q hq
    rw [d2]
    exact (convertEntry_files env path name mid).1 q hq
  · intro h
    rw [d2]
    exact (f1 h).2
  · intro h
    rw [d2, (f2 h).2]
    simp

/-- C9 (amended) on a directory whose first entry is converted and whose second
entry has no file behind it, so that it cannot be opened. -/
theorem ConvertMRItoPNG_aborts_witness :
    (ConvertMRItoPNG (envListing ["a.mri", "zzz"]) "d/" (fsWith [("d/a.mri", [1])])).1.err
      ≠ none ∧
    (ConvertMRItoPNG (envListing ["a.mri", "zzz"]) "d/" (fsWith [("d/a.mri", [1])])).2
      = (ConvertLoop (envListing ["a.mri", "zzz"]) "d/" ["a.mri"]
          (fsWith [("d/a.mri", [1])])).2 :=
  have h := ConvertMRItoPNG_aborts (envListing ["a.mri", "zzz"]) "d/"
    (fsWith [("d/a.mri", [1])])
    (ConvertLoop (envListing ["a.mri", "zzz"]) "d/" ["a.mri"] (fsWith [("d/a.mri", [1])])).2
    ["a.mri"] [] "zzz" rfl rfl (Or.inl (Or.inl ⟨"no such file or directory", rfl⟩))
  ⟨h.1, h.2.2.1 (Or.inl ⟨"no such file or directory", rfl⟩)⟩

/-! ## Running SaveChapter twice -/

/-- A run in which every page gets through returns nil; it sets the file of every
page to the body of its locator and leaves every other path alone. -/
theorem SaveChapter_run (env : Env) (chapter : Chapter) (path : String) (fs : FileSystem)
    (hok : ∀ j (h : j < chapter.Pages.length),
      ∃ r, pageSucceeds env (path ++ "/") (j : Int) chapter.Pages[j] r) :
    (SaveChapter env chapter path fs).1 = .returned none ∧
    (∀ q, (∀ j (h : j < chapter.Pages.length),
        q ≠ pagePath (path ++ "/") j chapter.Pages[j]) →
      (SaveChapter env chapter path fs).2.files q = fs.files q) ∧
    (∀ j (h : j < chapter.Pages.length) r, env.httpGet chapter.Pages[j] = .ok r →
      (SaveChapter env chapter path fs).2.files (pagePath (path ++ "/") j chapter.Pages[j])
        = some r.Body) := by
  have hok' : ∀ j (h : j < chapter.Pages.length),
      ∃ r, pageSucceeds env (path ++ "/") ((0 + j : Nat) : Int) chapter.Pages[j] r := by
    intro j h
    simpa using hok j h
  obtain ⟨mid, hloop, hframe, hbody⟩ :=
    SaveChapterLoop_prefix env (path ++ "/") chapter.Pages [] 0 fs hok'
  have hrun : SaveChapter env chapter path fs = (.returned none, mid) := by
    unfold SaveChapter
    have := hloop
    rw [List.append_nil] at this
    rw [this]
    rfl
  simp only [Nat.zero_add] at hframe hbody
  rw [hrun]
  exact ⟨rfl, hframe, hbody⟩

/-- C11: when the environment lets every page of the chapter through (and answers
the same locator with the same payload in both runs), a second run of
`SaveChapter` on the state the first run left also returns nil and leaves every
file, inside the destination directory and outside it, present with the same
content as after the first run. -/
theorem SaveChapter_idempotent (env : Env) (chapter : Chapter) (path : String)
    (fs : FileSystem)
    (hok : ∀ j (h : j < chapter.Pages.length),
      ∃ r, pageSucceeds env (path ++ "/") (j : Int) chapter.Pages[j] r) :
    (SaveChapter env chapter path fs).1 = .returned none ∧
    (SaveChapter env chapter path (SaveChapter env chapter path fs).2).1 = .returned none ∧
    (SaveChapter env chapter path (SaveChapter env chapter path fs).2).2.files
      = (SaveChapter env chapter path fs).2.files ∧
    (∀ p, inDirectory path p = true →
      ((SaveChapter env chapter path (SaveChapter env chapter path fs).2).2.files p ≠ none ↔
        (SaveChapter env chapter path fs).2.files p ≠ none)) := by
  obtain ⟨h1, _, hbody1⟩ := SaveChapter_run env chapter path fs hok
  obtain ⟨h2, hframe2, hbody2⟩ :=
    SaveChapter_run env chapter path (SaveChapter env chapter path fs).2 hok
  have hfiles : (SaveChapter env chapter path (SaveChapter env chapter path fs).2).2.files
      = (SaveChapter env chapter path fs).2.files := by
    funext q
    by_cases hq : ∀ j (h : j < chapter.Pages.length),
        q ≠ pagePath (path ++ "/") j chapter.Pages[j]
    · exact hframe2 q hq
    · push_neg at hq
      obtain ⟨j, h, rfl⟩ := hq
      obtain ⟨r, hr⟩ := hok j h
      rw [hbody2 j h r hr.1, hbody1 j h r hr.1]
  refine ⟨h1, h2, hfiles, fun p _ => ?_⟩
  rw [hfiles]

/-- C11 on a chapter of two pages saved twice into an empty file system. -/
theorem SaveChapter_idempotent_witness :
    (SaveChapter (envServing 200 none) ⟨"c", "n", 1, ["h/a.mri", "h/b.mri"]⟩ "d"
      (SaveChapter (envServing 200 none) ⟨"c", "n", 1, ["h/a.mri", "h/b.mri"]⟩ "d"
        emptyFS).2).2.files
      = (SaveChapter (envServing 200 none) ⟨"c", "n", 1, ["h/a.mri", "h/b.mri"]⟩ "d"
        emptyFS).2.files :=
  (SaveChapter_idempotent (envServing 200 none) ⟨"c", "n", 1, ["h/a.mri", "h/b.mri"]⟩
    "d" emptyFS
    (fun j hj =>
      match j, hj with
      | 0, _ => ⟨⟨200, samplePayload "h/a.mri", none⟩, rfl, rfl, _,
          saveMRIFilename_eq _ _, rfl, Or.inr rfl⟩
      | 1, _ => ⟨⟨200, samplePayload "h/b.mri", none⟩, rfl, rfl, _,
          saveMRIFilename_eq _ _, rfl, Or.inr rfl⟩
      | n + 2, hj => absurd hj (by simp))).2.2.1

/-! ## Client.Manga and Client.Chapter -/

theorem Manga_of_record (api : Api) (c : Client) (id : String) (res : Bytes)
    (m : MangaSingle)
    (hpost : Client.post api (c.base ++ "/info?oid=" ++ id) = .ok res)
    (hdec : api.unmarshalManga res = .ok m) :
    Client.Manga api c id =
      match m.Authors[0]? with
      | none => .panicked
      | some first => .returned ({ m with Author := first }, none) := by
  simp only [Client.Manga, hpost, hdec]

/-- C13, on the code: for a response that decodes into the record `m`, `Manga`
returns `m` with `Author` set to the first element of `Authors` and no error
when the list has a first element; when `Authors` is empty the access
`Authors[0]` is out of range and `Manga` panics instead of returning. -/
theorem Manga_first_author (api : Api) (c : Client) (id : String) (res : Bytes)
    (m : MangaSingle)
    (hpost : Client.post api (c.base ++ "/info?oid=" ++ id) = .ok res)
    (hdec : api.unmarshalManga res = .ok m) :
    (∀ first rest, m.Authors = first :: rest →
      Client.Manga api c id = .returned ({ m with Author := first }, none)) ∧
    (m.Authors = [] → Client.Manga api c id = .panicked) := by
  have h := Manga_of_record api c id res m hpost hdec
  constructor
  · intro first rest hm
    have h0 : m.Authors[0]? = some first := by simp [hm]
    simp only [h, h0]
  · intro hm
    have h0 : m.Authors[0]? = none := by simp [hm]
    simp only [h, h0]

/-- C13 at the failing input: the service answers with a record whose list of
authors is empty, and `Manga` panics. -/
theorem Manga_first_author_witness :
    Client.Manga (sampleApi [] [] []) sampleClient "m1" = .panicked :=
  (Manga_first_author (sampleApi [] [] []) sampleClient "m1"
    (samplePayload ("https://api" ++ "/info?oid=" ++ "m1")) (sampleManga [] []) rfl rfl).2 rfl

theorem chapterLoop_none (cid : String) (ps : List String) :
    ∀ cs : List Chapter, (∀ x ∈ cs, x.ID ≠ cid) →
      chapterLoop cid ps cs = (Chapter.zero, some "Chapter not found") := by
  intro cs
  induction cs with
  | nil => intro _; rfl
  | cons x xs ih =>
    intro h
    have hx : x.ID ≠ cid := h x (List.mem_cons_self _ _)
    rw [chapterLoop, if_pos hx]
    exact ih (fun y hy => h y (List.mem_cons_of_mem _ hy))

theorem chapterLoop_first (cid : String) (ps : List String) (ch : Chapter)
    (post : List Chapter) (hch : ch.ID = cid) :
    ∀ pre : List Chapter, (∀ x ∈ pre, x.ID ≠ cid) →
      chapterLoop cid ps (pre ++ ch :: post) = (⟨ch.ID, ch.Name, ch.Order, ps⟩, none) := by
  intro pre
  induction pre with
  | nil =>
    intro _
    have hn : ¬ ch.ID ≠ cid := fun h => h hch
    rw [List.nil_append, chapterLoop, if_neg hn]
  | cons x xs ih =>
    intro h
    have hx : x.ID ≠ cid := h x (List.mem_cons_self _ _)
    rw [List.cons_append, chapterLoop, if_pos hx]
    exact ih (fun y hy => h y (List.mem_cons_of_mem _ hy))

theorem exists_first_chapter (cid : String) :
    ∀ cs : List Chapter, (∃ x ∈ cs, x.ID = cid) →
      ∃ pre ch post, cs = pre ++ ch :: post ∧ (∀ x ∈ pre, x.ID ≠ cid) ∧ ch.ID = cid := by
  intro cs
  induction cs with
  | nil => rintro ⟨x, hx, _⟩; simp at hx
  | cons y ys ih =>
    rintro ⟨x, hx, hxid⟩
    by_cases hy : y.ID = cid
    · exact ⟨[], y, ys, rfl, fun z hz => absurd hz (by simp), hy⟩
    · have hx' : x ∈ ys := by
        rcases List.mem_cons.1 hx with e | e
        · exact absurd (e ▸ hxid) hy
        · exact e
      obtain ⟨pre, ch, post, e, hpre, hch⟩ := ih ⟨x, hx', hxid⟩
      refine ⟨y :: pre, ch, post, by rw [e]; rfl, ?_, hch⟩
      intro z hz
      rcases List.mem_cons.1 hz with e' | e'
      · rw [e']; exact hy
      · exact hpre z e'

theorem Chapter_of_calls (api : Api) (c : Client) (id cid : String) (manga : MangaSingle)
    (res : Bytes) (ps : List String)
    (hmanga : Client.Manga api c id = .returned (manga, none))
    (hpost : Client.post api (c.base ++ "/pages?oid=" ++ cid) = .ok res)
    (hpages : api.unmarshalPages res = .ok ps) :
    Client.Chapter api c id cid = .returned (chapterLoop cid ps manga.Chapters) := by
  simp only [Client.Chapter, hmanga, hpost, hpages]

/-- Once `Manga` has returned the manga with chapter list `cs` and the pages request
has yielded the locator list `ps`, `Chapter` returns the error
"Chapter not found" exactly when no element of `cs` has the ID `cid`, and then
together with the zero chapter; otherwise it returns, without error, the first
element of `cs` whose ID is `cid`, with `Pages` set to `ps` and `ID`, `Name` and
`Order` as they were. -/
theorem Chapter_of_manga (api : Api) (c : Client) (id cid : String) (manga : MangaSingle)
    (res : Bytes) (ps : List String)
    (hmanga : Client.Manga api c id = .returned (manga, none))
    (hpost : Client.post api (c.base ++ "/pages?oid=" ++ cid) = .ok res)
    (hpages : api.unmarshalPages res = .ok ps) :
    ((∃ ch, Client.Chapter api c id cid = .returned (ch, some "Chapter not found")) ↔
      ∀ x ∈ manga.Chapters, x.ID ≠ cid) ∧
    ((∀ x ∈ manga.Chapters, x.ID ≠ cid) →
      Client.Chapter api c id cid = .returned (Chapter.zero, some "Chapter not found")) ∧
    (∀ pre ch post, manga.Chapters = pre ++ ch :: post → (∀ x ∈ pre, x.ID ≠ cid) →
      ch.ID = cid →
      Client.Chapter api c id cid = .returned (⟨ch.ID, ch.Name, ch.Order, ps⟩, none)) := by
  have hrun := Chapter_of_calls api c id cid manga res ps hmanga hpost hpages
  have hfound : ∀ pre ch post, manga.Chapters = pre ++ ch :: post →
      (∀ x ∈ pre, x.ID ≠ cid) → ch.ID = cid →
      Client.Chapter api c id cid = .returned (⟨ch.ID, ch.Name, ch.Order, ps⟩, none) := by
    intro pre ch post e hpre hch
    rw [hrun, e, chapterLoop_first cid ps ch post hch pre hpre]
  have hmiss : (∀ x ∈ manga.Chapters, x.ID ≠ cid) →
      Client.Chapter api c id cid = .returned (Chapter.zero, some "Chapter not found") := by
    intro h
    rw [hrun, chapterLoop_none cid ps manga.Chapters h]
  refine ⟨⟨?_, fun h => ⟨_, hmiss h⟩⟩, hmiss, hfound⟩
  rintro ⟨ch0, h0⟩ x hx hxid
  obtain ⟨pre, ch, post, e, hpre, hch⟩ := exists_first_chapter cid manga.Chapters ⟨x, hx, hxid⟩
  rw [hfound pre ch post e hpre hch] at h0
  simp at h0

/-- C12, on the code: when both service calls succeed, the first decoding into the
record `m` and the second into the locator list `ps`, and `m` has at least one
author, `Chapter` returns the error "Chapter not found" exactly when no
chapter of `m` has the ID `cid`, and otherwise returns, without error, the first
chapter of `m` whose ID is `cid`, with `Pages` set to `ps` and `ID`, `Name` and
`Order` as they were.  When `m` has no author, `Manga` panics at `Authors[0]` and
`Chapter` with it, whatever the chapter list holds. -/
theorem Chapter_lookup (api : Api) (c : Client) (id cid : String) (res1 res2 : Bytes)
    (m : MangaSingle) (ps : List String)
    (hinfo : Client.post api (c.base ++ "/info?oid=" ++ id) = .ok res1)
    (hm : api.unmarshalManga res1 = .ok m)
    (hpost : Client.post api (c.base ++ "/pages?oid=" ++ cid) = .ok res2)
    (hpages : api.unmarshalPages res2 = .ok ps) :
    (m.Authors ≠ [] →
      ((∃ ch, Client.Chapter api c id cid = .returned (ch, some "Chapter not found")) ↔
        ∀ x ∈ m.Chapters, x.ID ≠ cid) ∧
      ((∀ x ∈ m.Chapters, x.ID ≠ cid) →
        Client.Chapter api c id cid = .returned (Chapter.zero, some "Chapter not found")) ∧
      (∀ pre ch post, m.Chapters = pre ++ ch :: post → (∀ x ∈ pre, x.ID ≠ cid) →
        ch.ID = cid →
        Client.Chapter api c id cid = .returned (⟨ch.ID, ch.Name, ch.Order, ps⟩, none))) ∧
    (m.Authors = [] → Client.Chapter api c id cid = .panicked) := by
  have h := Manga_of_record api c id res1 m hinfo hm
  constructor
  · intro hne
    obtain ⟨first, rest, hfr⟩ : ∃ first rest, m.Authors = first :: rest := by
      cases hA : m.Authors with
      | nil => exact absurd hA hne
      | cons a t => exact ⟨a, t, rfl⟩
    have h0 : m.Authors[0]? = some first := by simp [hfr]
    have hmanga : Client.Manga api c id = .returned ({ m with Author := first }, none) := by
      simp only [h, h0]
    exact Chapter_of_manga api c id cid { m with Author := first } res2 ps hmanga hpost hpages
  · intro hnil
    have h0 : m.Authors[0]? = none := by simp [hnil]
    have hmanga : Client.Manga api c id = .panicked := by
      simp only [h, h0]
    simp only [Client.Chapter, hmanga]

/-- C12 at the failing input: both service calls succeed and the manga lists the
requested chapter `c2`, but it has no author, and `Chapter` panics; with one
author the first chapter with the ID `c2` comes back with the pages. -/
theorem Chapter_lookup_witness :
    Client.Chapter
      (sampleApi [] [⟨"c1", "one", 1, []⟩, ⟨"c2", "two", 2, []⟩] ["p0", "p1"])
      sampleClient "m1" "c2" = .panicked ∧
    Client.Chapter
      (sampleApi [⟨"a1", "Ann", "", ""⟩]
        [⟨"c1", "one", 1, []⟩, ⟨"c2", "two", 2, []⟩, ⟨"c2", "again", 3, []⟩] ["p0", "p1"])
      sampleClient "m1" "c2"
      = .returned (⟨"c2", "two", 2, ["p0", "p1"]⟩, none) :=
  ⟨(Chapter_lookup
      (sampleApi [] [⟨"c1", "one", 1, []⟩, ⟨"c2", "two", 2, []⟩] ["p0", "p1"])
      sampleClient "m1" "c2"
      (samplePayload ("https://api" ++ "/info?oid=" ++ "m1"))
      (samplePayload ("https://api" ++ "/pages?oid=" ++ "c2"))
      (sampleManga [] [⟨"c1", "one", 1, []⟩, ⟨"c2", "two", 2, []⟩]) ["p0", "p1"]
      rfl rfl rfl rfl).2 rfl,
   ((Chapter_lookup
      (sampleApi [⟨"a1", "Ann", "", ""⟩]
        [⟨"c1", "one", 1, []⟩, ⟨"c2", "two", 2, []⟩, ⟨"c2", "again", 3, []⟩] ["p0", "p1"])
      sampleClient "m1" "c2"
      (samplePayload ("https://api" ++ "/info?oid=" ++ "m1"))
      (samplePayload ("https://api" ++ "/pages?oid=" ++ "c2"))
      (sampleManga [⟨"a1", "Ann", "", ""⟩]
        [⟨"c1", "one", 1, []⟩, ⟨"c2", "two", 2, []⟩, ⟨"c2", "again", 3, []⟩]) ["p0", "p1"]
      rfl rfl rfl rfl).1 (by simp [sampleManga])).2.2
      [⟨"c1", "one", 1, []⟩] ⟨"c2", "two", 2, []⟩ [⟨"c2", "again", 3, []⟩] rfl
      (by decide) rfl⟩

end Mangarock
